import Mathlib

/-!
Verification of the RateRadarPA repository (PA gas / electricity rate scrapers
and their Streamlit presentation layer).

The development shallowly embeds the three Python source files:

* `pagasswitch_export_scraper.py`  — `PAGasSwitchExportScraper.process_csv_file`
  (the gas normalization pipeline), `PAGasSwitchExportScraper.run` and `main`
  (the gas retry loops);
* `papowerswitch_export_scraper.py` — `PAPowerSwitchExportScraper.process_csv_file`
  (the electricity normalization pipeline) and `PAPowerSwitchExportScraper.run`
  (the electricity retry loop);
* `app.py` — `get_latest_csv` (the presentation-layer CSV lookup).

A pandas `DataFrame` is modelled as a `Frame`: an ordered column header plus
row-major rows, each row an ordered association list from column name to `Cell`.
A `Cell` is a string, a rational number, or NaN (missing).  Numeric values use
`Rat`; the only property of Python's `str(float)` the code relies on is that a
non-NaN float never prints as `"nan"`, which the abstract representation
preserves.  `sort_values(by='Price')` is called with its default
`kind='quicksort'` (numpy introsort), which guarantees a sorted permutation
with NaN keys placed last (`na_position='last'`) but not stability; the
pipelines are therefore embedded with the sort behavior as a parameter
(`priceStepK`, contract `sortsRows`), and the stable-mergeSort instance
(`priceStep`) serves the claims whose content is insensitive to the order
of equal-Price rows.  Column dtypes are represented by the cells
themselves: a `read_csv` column is numeric-dtyped exactly when all its
cells are `num`/`nan`, which is what the gas derive step's
`AttributeError` condition (`miNumeric`) inspects.
-/

/-- One cell of a pandas DataFrame: a string, a number, or NaN (missing). -/
inductive Cell where
  | str : String → Cell
  | num : Rat → Cell
  | nan : Cell
deriving DecidableEq, Repr

/-- A row: ordered association list from column name to cell value. -/
abbrev Row := List (String × Cell)

/-- A DataFrame: ordered header plus rows.  Well-formed frames (as produced by
`pd.read_csv`) have every row keyed exactly by the header, in order. -/
structure Frame where
  header : List String
  rows : List Row
deriving DecidableEq, Repr

/-- Rectangularity: every row's key sequence is exactly the header. -/
def Frame.WF (f : Frame) : Prop := ∀ r ∈ f.rows, r.map Prod.fst = f.header

/-- Column presence test (`col in df.columns`). -/
def Frame.hasCol (f : Frame) (c : String) : Bool := f.header.contains c

/-- Cell lookup by column name (`df.loc[row, col]`); NaN when absent. -/
def getCell (r : Row) (c : String) : Cell :=
  match r.find? (fun p => p.1 == c) with
  | some p => p.2
  | none => Cell.nan

/-- Occurrence of `sub` anywhere in `cs`. -/
def containsSub (cs sub : List Char) : Bool :=
  sub.isPrefixOf cs ||
    match cs with
    | [] => false
    | _ :: rest => containsSub rest sub

/-- Substring test, used for pandas `'Unnamed' in col` and `.str.contains`. -/
def strContains (s sub : String) : Bool := containsSub s.data sub.data

/-- ASCII lowercasing (Python `str.lower()` on the data in scope). -/
def strLower (s : String) : String := ⟨s.data.map Char.toLower⟩

/-- `Series.isna()` elementwise. -/
def cellIsNa : Cell → Bool
  | Cell.nan => true
  | _ => false

/-- Elementwise `series == s` for a string `s`: only a string cell with the
same contents compares equal (NaN and numbers compare `False` in pandas). -/
def cellEqStr (c : Cell) (s : String) : Bool :=
  match c with
  | Cell.str t => t == s
  | _ => false

/-- `Series.astype(str)` elementwise.  NaN prints as `"nan"`.  The numeric
rendering is abstract; the code only ever compares it with `"nan"`, and a
non-NaN Python float never prints as `"nan"`, which the `"num " ++ _` prefix
guarantees here. -/
def cellAstype : Cell → String
  | Cell.str s => s
  | Cell.num q => "num " ++ toString q
  | Cell.nan => "nan"

/-- Guarded equality row filter:
`if c in df.columns: df = df[df[c] == v]` (skipped when the column is absent). -/
def filterEq (c v : String) (f : Frame) : Frame :=
  if f.hasCol c then
    ⟨f.header, f.rows.filter (fun r => cellEqStr (getCell r c) v)⟩
  else f

/-- The gas scraper's blank-Cancellation-Fee condition
(`isna() | (== '') | (astype(str) == 'nan')`). -/
def cancKeep (c : Cell) : Bool :=
  cellIsNa c || cellEqStr c "" || (cellAstype c == "nan")

/-- Guarded Cancellation Fee filter (gas pipeline, Filter 4). -/
def filterCancBlank (f : Frame) : Frame :=
  if f.hasCol "Cancellation Fee" then
    ⟨f.header, f.rows.filter (fun r => cancKeep (getCell r "Cancellation Fee"))⟩
  else f

/-- Filters 1–3, shared by both category pipelines:
Service Type = Residential, Type = Fixed, Monthly Fee = No. -/
def baseFilters (f : Frame) : Frame :=
  filterEq "Monthly Fee" "No" (filterEq "Type" "Fixed" (filterEq "Service Type" "Residential" f))

/-- The gas row-filter phase (Filters 1–5 of
`PAGasSwitchExportScraper.process_csv_file`). -/
def gasFilters (f : Frame) : Frame :=
  filterEq "Discounts/Incentives Available" "No" (filterCancBlank (baseFilters f))

/-- The electricity row-filter phase (the three guarded filters of
`PAPowerSwitchExportScraper.process_csv_file`). -/
def elecFilters (f : Frame) : Frame := baseFilters f

/-- Digits-only check for the numeric parser. -/
def allDigits (cs : List Char) : Bool := !cs.isEmpty && cs.all (·.isDigit)

/-- Numeric value of a digit list. -/
def natOfDigits (cs : List Char) : Nat := cs.foldl (fun a c => a * 10 + (c.toNat - 48)) 0

/-- Whitespace trimming on both ends. -/
def trimData (cs : List Char) : List Char :=
  ((cs.dropWhile Char.isWhitespace).reverse.dropWhile Char.isWhitespace).reverse

/-- Decimal parser backing `pd.to_numeric(errors='coerce')` on strings:
optional sign, integer part, optional fractional part. -/
def parseNum? (s : String) : Option Rat :=
  let cs := trimData s.data
  let core : List Char → Option Rat := fun ds =>
    if ds.contains '.' then
      let ip := ds.takeWhile (· ≠ '.')
      let fp := (ds.dropWhile (· ≠ '.')).drop 1
      if fp.contains '.' then none
      else if (ip.isEmpty || allDigits ip) && (fp.isEmpty || allDigits fp) &&
              !(ip.isEmpty && fp.isEmpty) then
        some ((natOfDigits ip : Rat) + (natOfDigits fp : Rat) / ((10 : Rat) ^ fp.length))
      else none
    else if allDigits ds then some (natOfDigits ds : Rat) else none
  match cs with
  | '-' :: rest => (core rest).map (fun q => -q)
  | '+' :: rest => core rest
  | _ => core cs

/-- `pd.to_numeric(errors='coerce')` elementwise: numbers stay, strings are
parsed or become NaN, NaN stays NaN. -/
def toNumeric : Cell → Cell
  | Cell.num q => Cell.num q
  | Cell.nan => Cell.nan
  | Cell.str s =>
    match parseNum? s with
    | some q => Cell.num q
    | none => Cell.nan

/-- Numeric view of a cell (the sort key after coercion). -/
def cellNum? : Cell → Option Rat
  | Cell.num q => some q
  | _ => none

/-- Sort-key order: numbers ascending, NaN last (`na_position='last'`). -/
def optLe : Option Rat → Option Rat → Bool
  | some a, some b => a ≤ b
  | some _, none => true
  | none, some _ => false
  | none, none => true

/-- A row's Price sort key. -/
def priceKeyR (r : Row) : Option Rat := cellNum? (getCell r "Price")

/-- Row comparison used by `sort_values(by='Price')`. -/
def rowLe (a b : Row) : Bool := optLe (priceKeyR a) (priceKeyR b)

/-- Elementwise column update (`df[c] = f(df[c])`), keys preserved. -/
def mapColRow (c : String) (g : Cell → Cell) (r : Row) : Row :=
  r.map (fun p => if p.1 == c then (p.1, g p.2) else p)

/-- The guarded Price step of both pipelines with the sort kind left
abstract: coerce Price to numeric, then sort by some function `srt`.
`sort_values(by='Price')` is called with the default `kind='quicksort'`
(numpy introsort), which promises a sorted permutation but not stability,
so the concrete permutation of equal-Price rows is not determined by the
code; `sortsRows` below is the contract every legitimate `srt` satisfies. -/
def priceStepK (srt : List Row → List Row) (f : Frame) : Frame :=
  if f.hasCol "Price" then
    ⟨f.header, srt (f.rows.map (mapColRow "Price" toNumeric))⟩
  else f

/-- The `sort_values(kind='quicksort')` contract: the result is a
`rowLe`-sorted permutation of the input (numbers ascending, NaN last);
which permutation of tied rows results is not specified. -/
def sortsRows (srt : List Row → List Row) : Prop :=
  ∀ l, (srt l).Perm l ∧ List.Pairwise (fun a b => rowLe a b = true) (srt l)

/-- The guarded Price step instantiated with a stable merge sort — one
particular behavior allowed by the quicksort contract, convenient for the
claims whose content does not depend on the order of equal-Price rows. -/
def priceStep (f : Frame) : Frame :=
  if f.hasCol "Price" then
    ⟨f.header, (f.rows.map (mapColRow "Price" toNumeric)).mergeSort rowLe⟩
  else f

/-- One legitimate unstable sort behavior: swap a tied pair outright,
otherwise fall back to the stable merge sort.  (numpy's introsort really
does permute equal elements of an already-sorted input once a tie block
exceeds its insertion-sort cutoff.) -/
def swapTies : List Row → List Row
  | [a, b] => if rowLe a b && rowLe b a then [b, a] else ([a, b]).mergeSort rowLe
  | l => l.mergeSort rowLe

/-- Row projection dropping the named columns. -/
def dropRow (cs : List String) (r : Row) : Row :=
  r.filter (fun p => !cs.contains p.1)

/-- `df.drop(columns=cs)`: KeyError when any named column is absent. -/
def dropCols (cs : List String) (f : Frame) : Except String Frame :=
  if cs.all f.header.contains then
    Except.ok ⟨f.header.filter (fun c => !cs.contains c), f.rows.map (dropRow cs)⟩
  else Except.error "KeyError"

/-- Row projection onto the named columns, in the given order. -/
def selectRow (cs : List String) (r : Row) : Row :=
  cs.map (fun c => (c, getCell r c))

/-- `df[cs]` column selection: KeyError when any named column is absent. -/
def selectCols (cs : List String) (f : Frame) : Except String Frame :=
  if cs.all f.header.contains then
    Except.ok ⟨cs, f.rows.map (selectRow cs)⟩
  else Except.error "KeyError"

/-- Overwrite the value at key `c` in a row. -/
def setRowVal (c : String) (v : Cell) (r : Row) : Row :=
  r.map (fun p => if p.1 == c then (p.1, v) else p)

/-- `df[c] = vals`: overwrite in place when the column exists, else append it
as the last column. -/
def setCol (c : String) (vals : List Cell) (f : Frame) : Frame :=
  if f.hasCol c then
    ⟨f.header, List.zipWith (fun r v => setRowVal c v r) f.rows vals⟩
  else
    ⟨f.header ++ [c], List.zipWith (fun r v => r ++ [(c, v)]) f.rows vals⟩

/-- The values of a column, when present (`df[c].copy()`). -/
def colVals? (f : Frame) (c : String) : Option (List Cell) :=
  if f.hasCol c then some (f.rows.map (fun r => getCell r c)) else none

/-- `Series.fillna('')` elementwise. -/
def fillNa : Cell → Cell
  | Cell.nan => Cell.str ""
  | c => c

/-- The `str.lower().str.contains('for new customers', na=False)` test:
non-string cells never match. -/
def matchesNC : Cell → Bool
  | Cell.str s => strContains (strLower s) "for new customers"
  | _ => false

/-- The priority columns moved to the front by both pipelines. -/
def prioCols : List String := ["Supplier", "Price", "Term Length"]

/-- The gas pipeline's `columns_to_remove`: "More info" (stored for
re-insertion), "Cancellation Fee", and every column containing "Unnamed". -/
def gasCtr (h : List String) : List String :=
  (if h.contains "More info" then ["More info"] else []) ++
  (if h.contains "Cancellation Fee" then ["Cancellation Fee"] else []) ++
  h.filter (fun c => strContains c "Unnamed")

/-- Whether a cell is a (non-missing) number. -/
def cellIsNum : Cell → Bool
  | Cell.num _ => true
  | _ => false

/-- Whether the stored "More info" series keeps a numeric dtype through
`fillna('')`: it is non-empty and wholly numeric with no NaN to fill.  A
`read_csv` column has a numeric dtype exactly when every entry parses as a
number (so its cells here are `num`/`nan`, never `str`), row filtering
preserves the dtype, and `fillna('')` converts to object dtype only when
there is a NaN to fill.  On a still-numeric series the `.str` accessor of
line 838 raises `AttributeError: Can only use .str accessor with string
values!` (pandas allows the inferred dtypes string/empty/bytes/mixed, not
integer/floating). -/
def miNumeric (col : List Cell) : Bool := !col.isEmpty && col.all cellIsNum

/-- The derived-column step of the gas pipeline (lines 831–847): when a
"More info" column was stored, derive "New Customers only" from it and
re-append the NaN-filled "More info" column last; otherwise do nothing.
When the stored series is still numeric after `fillna('')`, the `.str`
accessor raises and the whole processing call fails (caught at line 891). -/
def gasDerive (mi : Option (List Cell)) (f8 : Frame) : Except String Frame :=
  match mi with
  | none => Except.ok f8
  | some col =>
    if miNumeric col then Except.error "AttributeError"
    else
      let colF := col.map fillNa
      let vals := colF.map (fun c => if matchesNC c then Cell.str "Yes" else Cell.str "No")
      Except.ok (setCol "More info" colF (setCol "New Customers only" vals f8))

/-- The gas column phase (lines 793–852), applied to the filtered and
sorted frame `f6`: store "More info", drop the unwanted columns, reorder
with the priority columns first, then the derived-column step. -/
def gasColumnPhase (f6 : Frame) : Except String Frame :=
  let mi := colVals? f6 "More info"
  let ctr := gasCtr f6.header
  Except.bind (if ctr.isEmpty then pure f6 else dropCols ctr f6) (fun f7 =>
    Except.bind
      (if prioCols.all f7.header.contains then
        selectCols (prioCols ++ f7.header.filter (fun c => !prioCols.contains c)) f7
      else pure f7) (fun f8 =>
      gasDerive mi f8))

/-- The raise condition of the gas derive step, on the filtered, sorted
frame: a "More info" column is present and its stored series is non-empty
and wholly numeric. -/
def miRaises (f6 : Frame) : Bool :=
  f6.hasCol "More info" && miNumeric (f6.rows.map (fun r => getCell r "More info"))

/-- The gas normalization pipeline
(`PAGasSwitchExportScraper.process_csv_file`, lines 743–852) with the sort
kind abstract: filters, Price coercion and sort, column drops, priority
reorder, derived "New Customers only" column, "More info" re-appended
last. -/
def normalizeGasK (srt : List Row → List Row) (f : Frame) : Except String Frame :=
  gasColumnPhase (priceStepK srt (gasFilters f))

/-- The gas normalization pipeline at the stable-sort instance. -/
def normalizeGas (f : Frame) : Except String Frame :=
  gasColumnPhase (priceStep (gasFilters f))

/-- The three informational columns removed by the electricity pipeline. -/
def elecInfoCols : List String := ["PA Wind", "Renewable Energy", "Contact Phone Number"]

/-- The electricity pipeline's guarded per-column drop loop. -/
def elecDropSeq : List String → Frame → Except String Frame
  | [], f => pure f
  | c :: cs, f =>
    if f.hasCol c then do elecDropSeq cs (← dropCols [c] f)
    else elecDropSeq cs f

/-- The electricity column phase (lines 315–327), applied to the filtered
and sorted frame `f5`: priority reorder of the existing priority columns. -/
def elecColumnPhase (f5 : Frame) : Except String Frame :=
  let prioEx := prioCols.filter f5.header.contains
  selectCols (prioEx ++ f5.header.filter (fun c => !prioEx.contains c)) f5

/-- The electricity normalization pipeline
(`PAPowerSwitchExportScraper.process_csv_file`, lines 285–327) with the
sort kind abstract: informational column drops, three filters, Price
coercion and sort, priority reorder.  No derived column and no "More info"
relocation exist in this pipeline. -/
def normalizeElecK (srt : List Row → List Row) (f : Frame) : Except String Frame := do
  let f1 ← elecDropSeq elecInfoCols f
  elecColumnPhase (priceStepK srt (elecFilters f1))

/-- The electricity normalization pipeline at the stable-sort instance. -/
def normalizeElec (f : Frame) : Except String Frame := do
  let f1 ← elecDropSeq elecInfoCols f
  elecColumnPhase (priceStep (elecFilters f1))

/-- The applicable-predicate form of a guarded equality filter: satisfied
vacuously when the column is absent. -/
def appliesEq (h : List String) (c v : String) (r : Row) : Bool :=
  !h.contains c || cellEqStr (getCell r c) v

/-- The conjunction of the electricity pipeline's applicable row predicates. -/
def elecPred (h : List String) (r : Row) : Bool :=
  appliesEq h "Service Type" "Residential" r &&
  appliesEq h "Type" "Fixed" r &&
  appliesEq h "Monthly Fee" "No" r

/-- The conjunction of the gas pipeline's applicable row predicates. -/
def gasPred (h : List String) (r : Row) : Bool :=
  elecPred h r &&
  (!h.contains "Cancellation Fee" || cancKeep (getCell r "Cancellation Fee")) &&
  appliesEq h "Discounts/Incentives Available" "No" r

/-- The per-frame Price column as sort keys (for stating the ordering claim). -/
def priceList (f : Frame) : List (Option Rat) := f.rows.map priceKeyR

/-!
### Retry supervisor model

`PAPowerSwitchExportScraper.run` (papowerswitch, lines 350–402) runs a `for`
loop of at most `max_retries` attempts.  Each attempt calls `setup_driver()`
afresh; the `finally` block quits the driver.  The inter-attempt
`time.sleep(retry_delay)` sits *after* the `try/finally` in the loop body, so
the `continue` statements used on step failure skip it: the sleep only runs
when the attempt ended in a raised exception.

`PAGasSwitchExportScraper.run` (pagasswitch, lines 915–975) loops while
`retry_count < max_retries`, sleeping `retry_delay` at the top of every
iteration after the first.  The Chrome driver is created once in `__init__`
and quit in the `finally` block of every attempt, but never re-created, so
all attempts of one `run` call share the same (after the first attempt,
already-quit) driver instance.  `main` (lines 1000–1031) wraps `run` in a
second retry loop of up to `max_retries` iterations, creating a fresh scraper
(hence a fresh driver) per outer iteration and sleeping `retry_delay` at the
top of every outer iteration after the first.

Workflow-step results are abstracted by an oracle giving each attempt's
outcome.
-/

/-- Outcome of one workflow attempt. -/
inductive Outcome where
  | ok : Outcome
  | failStep : Outcome
  | failExc : Outcome
deriving DecidableEq, Repr

/-- One attempt as observed by the retry loop: which automation-capability
(driver) instance it used, the seconds slept since the previous attempt, its
outcome, and whether the instance was quit before control returned. -/
structure AttemptRec where
  driverId : Nat
  sleepBefore : Nat
  outcome : Outcome
  released : Bool
deriving DecidableEq, Repr

/-- The electricity retry loop (`PAPowerSwitchExportScraper.run`).  `fuel`
counts remaining loop iterations, `idx` the 1-based attempt number, `pend`
the sleep executed since the previous attempt.  A fresh driver (`driverId =
idx`) is set up each iteration and quit in `finally`; on a step failure the
`continue` skips the sleep, on an exception the sleep runs. -/
def powerRunAux (oracle : Nat → Outcome) (maxRetries delay : Nat) :
    Nat → Nat → Nat → List AttemptRec
  | 0, _, _ => []
  | fuel + 1, idx, pend =>
    let a : AttemptRec := ⟨idx, pend, oracle idx, true⟩
    match oracle idx with
    | Outcome.ok => [a]
    | Outcome.failStep => a :: powerRunAux oracle maxRetries delay fuel (idx + 1) 0
    | Outcome.failExc =>
      a :: powerRunAux oracle maxRetries delay fuel (idx + 1)
        (if idx < maxRetries then delay else 0)

/-- The attempts performed by one `PAPowerSwitchExportScraper.run` call. -/
def powerRun (oracle : Nat → Outcome) (maxRetries delay : Nat) : List AttemptRec :=
  powerRunAux oracle maxRetries delay maxRetries 1 0

/-- The gas inner retry loop (`PAGasSwitchExportScraper.run`) for a scraper
whose single driver instance is `d`.  The oracle gives each attempt's
success; failures by step result and by exception behave identically here
(the sleep is at the top of the loop).  Every attempt uses the same driver
`d`, created in `__init__` and quit in `finally` each attempt.  Returns the
attempt list and whether the run succeeded. -/
def gasRunAux (oracle : Nat → Bool) (d delay : Nat) :
    Nat → Nat → Nat → List AttemptRec × Bool
  | 0, _, _ => ([], false)
  | fuel + 1, idx, pend =>
    let a : AttemptRec := ⟨d, pend, if oracle idx then Outcome.ok else Outcome.failStep, true⟩
    if oracle idx then ([a], true)
    else
      let r := gasRunAux oracle d delay fuel (idx + 1) delay
      (a :: r.1, r.2)

/-- The attempts of one `PAGasSwitchExportScraper.run` call; `pend0` is the
sleep the caller executed just before the first attempt. -/
def gasRun (oracle : Nat → Bool) (d maxRetries delay pend0 : Nat) : List AttemptRec × Bool :=
  gasRunAux oracle d delay maxRetries 0 pend0

/-- The gas outer retry loop (`main` of pagasswitch): up to `maxRetries`
iterations, each creating a fresh scraper (driver instance `k`) and invoking
`run`, which itself performs up to `maxRetries` attempts; `delay` is slept at
the top of every outer iteration after the first. -/
def gasMainAux (oracle : Nat → Nat → Bool) (maxRetries delay : Nat) :
    Nat → Nat → Nat → List AttemptRec
  | 0, _, _ => []
  | fuel + 1, k, pend =>
    let r := gasRun (oracle k) k maxRetries delay pend
    if r.2 then r.1
    else r.1 ++ gasMainAux oracle maxRetries delay fuel (k + 1) delay

/-- All workflow attempts performed by one invocation of the gas scraper's
`main` with the given retry parameters. -/
def gasMain (oracle : Nat → Nat → Bool) (maxRetries delay : Nat) : List AttemptRec :=
  gasMainAux oracle maxRetries delay maxRetries 0 0

/-!
### Presentation-layer lookup model (`app.py`, `get_latest_csv`)

The `output/` directory is modelled as a flat list of (path, creation time)
pairs, as both scrapers write their artifacts directly into `output/`.
`glob.glob(f"output/{prefix}_filtered_{zipcode}_*.csv")` matches exactly the
names that extend the literal stem by any (possibly empty) character
sequence followed by ".csv".  Python's `max(files, key=os.path.getctime)`
keeps the earliest of equally-recent files, i.e. replaces the running
maximum only on a strictly larger key.
-/

/-- Character-level string prefix test. -/
def strStarts (s p : String) : Bool := p.data.isPrefixOf s.data

/-- Character-level string suffix test. -/
def strEnds (s p : String) : Bool := p.data.isSuffixOf s.data

/-- Whether `name` matches the glob pattern
`output/{pre}_filtered_{z}_*.csv`. -/
def filePat (pre z name : String) : Bool :=
  let stem := "output/" ++ pre ++ "_filtered_" ++ z ++ "_"
  strStarts name stem && strEnds name ".csv" && Nat.ble (stem.length + 4) name.length

/-- The category-specific file name stem chosen by `get_latest_csv`. -/
def catPre (energy : String) : String :=
  if energy == "Electricity" then "papowerswitch" else "pagasswitch"

/-- `get_latest_csv(zipcode, energy_type)` over a directory listing:
`FileNotFoundError` when nothing matches the pattern, otherwise the matching
file with the greatest creation time (first such file on ties). -/
def get_latest_csv (files : List (String × Int)) (zipcode energy : String) :
    Except String String :=
  match files.filter (fun p => filePat (catPre energy) zipcode p.1) with
  | [] => Except.error "FileNotFoundError"
  | m :: ms => Except.ok (ms.foldl (fun acc p => if acc.2 < p.2 then p else acc) m).1

/-- The filtered-CSV artifact name written by the scrapers for a zipcode and
timestamp (`pagasswitch_export_scraper.py` line 850,
`papowerswitch_export_scraper.py` line 330). -/
def scraperCsvName (pre z t : String) : String :=
  "output/" ++ pre ++ "_filtered_" ++ z ++ "_" ++ t ++ ".csv"

/-!
### Canonical forms of the two pipelines

The following total functions spell out, case by case on the column-presence
guards, exactly what each `Except`-valued pipeline produces.  The
characterization lemmas `normalizeGas_eq` and `normalizeElec_eq` below prove
that the pipelines always succeed and return these forms.
-/

/-- Header after the gas drop step. -/
def gasH7 (h : List String) : List String :=
  h.filter (fun c => !(gasCtr h).contains c)

/-- Header after the gas priority reorder. -/
def gasH8 (h7 : List String) : List String :=
  if prioCols.all h7.contains then
    prioCols ++ h7.filter (fun c => !prioCols.contains c)
  else h7

/-- A row after the gas drop and reorder steps (`h` is the header entering
the drop step). -/
def gasRow8 (h : List String) (r : Row) : Row :=
  if prioCols.all (gasH7 h).contains then
    selectRow (prioCols ++ (gasH7 h).filter (fun c => !prioCols.contains c))
      (dropRow (gasCtr h) r)
  else dropRow (gasCtr h) r

/-- The derived "New Customers only" value of a row. -/
def gasNCOv (r : Row) : Cell :=
  if matchesNC (fillNa (getCell r "More info")) then Cell.str "Yes" else Cell.str "No"

/-- The re-appended "More info" value of a row (NaN filled with ""). -/
def gasMIv (r : Row) : Cell := fillNa (getCell r "More info")

/-- A full output row of the gas pipeline, from a sorted filtered row. -/
def gasRowOut (h : List String) (r : Row) : Row :=
  if h.contains "More info" then
    (if (gasH8 (gasH7 h)).contains "New Customers only" then
       setRowVal "New Customers only" (gasNCOv r) (gasRow8 h r)
     else gasRow8 h r ++ [("New Customers only", gasNCOv r)]) ++
    [("More info", gasMIv r)]
  else gasRow8 h r

/-- The output header of the gas pipeline. -/
def gasHOut (h : List String) : List String :=
  if h.contains "More info" then
    (if (gasH8 (gasH7 h)).contains "New Customers only" then gasH8 (gasH7 h)
     else gasH8 (gasH7 h) ++ ["New Customers only"]) ++ ["More info"]
  else gasH8 (gasH7 h)

/-- The gas output header before the "More info" re-append: the reordered
header with "New Customers only" overwritten in place or appended. -/
def gasH9 (h : List String) : List String :=
  if (gasH8 (gasH7 h)).contains "New Customers only" then gasH8 (gasH7 h)
  else gasH8 (gasH7 h) ++ ["New Customers only"]

/-- A gas output row before the "More info" re-append. -/
def gasRow9 (h : List String) (r : Row) : Row :=
  if (gasH8 (gasH7 h)).contains "New Customers only" then
    setRowVal "New Customers only" (gasNCOv r) (gasRow8 h r)
  else gasRow8 h r ++ [("New Customers only", gasNCOv r)]

/-- The gas pipeline's column phase, applied to the sorted filtered frame. -/
def gasCanon (p : Frame) : Frame := ⟨gasHOut p.header, p.rows.map (gasRowOut p.header)⟩

/-- Total form of the electricity informational-column drop loop. -/
def elecDropT : List String → Frame → Frame
  | [], f => f
  | c :: cs, f =>
    if f.hasCol c then
      elecDropT cs ⟨f.header.filter (fun x => !([c].contains x)), f.rows.map (dropRow [c])⟩
    else elecDropT cs f

/-- The electricity reorder column list. -/
def elecSel (h : List String) : List String :=
  prioCols.filter h.contains ++ h.filter (fun c => !(prioCols.filter h.contains).contains c)

/-- The electricity pipeline's column phase, applied to the sorted filtered
frame. -/
def elecCanon (p : Frame) : Frame :=
  ⟨elecSel p.header, p.rows.map (selectRow (elecSel p.header))⟩

/-- A concrete gas/electricity raw export used by several witnesses: one
commercial row (filtered out), one unparseable price, one "for new
customers" offer, prices out of order. -/
def sampleExport : Frame :=
  ⟨["Supplier", "Price", "Term Length", "Service Type", "More info"],
   [[("Supplier", Cell.str "A"), ("Price", Cell.str "9"), ("Term Length", Cell.str "12"),
     ("Service Type", Cell.str "Residential"), ("More info", Cell.str "Best for new customers")],
    [("Supplier", Cell.str "B"), ("Price", Cell.str "7"), ("Term Length", Cell.str "6"),
     ("Service Type", Cell.str "Commercial"), ("More info", Cell.nan)],
    [("Supplier", Cell.str "C"), ("Price", Cell.str "x"), ("Term Length", Cell.str "24"),
     ("Service Type", Cell.str "Residential"), ("More info", Cell.str "cheap")],
    [("Supplier", Cell.str "D"), ("Price", Cell.str "5"), ("Term Length", Cell.str "3"),
     ("Service Type", Cell.str "Residential"), ("More info", Cell.nan)]]⟩

/-- The gas pipeline's output on `sampleExport`. -/
def sampleGasOut : Frame :=
  ⟨["Supplier", "Price", "Term Length", "Service Type", "New Customers only", "More info"],
   [[("Supplier", Cell.str "D"), ("Price", Cell.num 5), ("Term Length", Cell.str "3"),
     ("Service Type", Cell.str "Residential"), ("New Customers only", Cell.str "No"),
     ("More info", Cell.str "")],
    [("Supplier", Cell.str "A"), ("Price", Cell.num 9), ("Term Length", Cell.str "12"),
     ("Service Type", Cell.str "Residential"), ("New Customers only", Cell.str "Yes"),
     ("More info", Cell.str "Best for new customers")],
    [("Supplier", Cell.str "C"), ("Price", Cell.nan), ("Term Length", Cell.str "24"),
     ("Service Type", Cell.str "Residential"), ("New Customers only", Cell.str "No"),
     ("More info", Cell.str "cheap")]]⟩

/-- The electricity pipeline's output on `sampleExport`. -/
def sampleElecOut : Frame :=
  ⟨["Supplier", "Price", "Term Length", "Service Type", "More info"],
   [[("Supplier", Cell.str "D"), ("Price", Cell.num 5), ("Term Length", Cell.str "3"),
     ("Service Type", Cell.str "Residential"), ("More info", Cell.nan)],
    [("Supplier", Cell.str "A"), ("Price", Cell.num 9), ("Term Length", Cell.str "12"),
     ("Service Type", Cell.str "Residential"), ("More info", Cell.str "Best for new customers")],
    [("Supplier", Cell.str "C"), ("Price", Cell.nan), ("Term Length", Cell.str "24"),
     ("Service Type", Cell.str "Residential"), ("More info", Cell.str "cheap")]]⟩

/-- An electricity export with two offers at the same Price. -/
def tieExport : Frame :=
  ⟨["Supplier", "Price"],
   [[("Supplier", Cell.str "A"), ("Price", Cell.str "5")],
    [("Supplier", Cell.str "B"), ("Price", Cell.str "5")]]⟩

/-- The electricity output of `tieExport` under the tie-swapping sort. -/
def tieOut1 : Frame :=
  ⟨["Supplier", "Price"],
   [[("Supplier", Cell.str "B"), ("Price", Cell.num 5)],
    [("Supplier", Cell.str "A"), ("Price", Cell.num 5)]]⟩

/-- The electricity output of `tieOut1` under the tie-swapping sort: the
two tied rows come back in the opposite order. -/
def tieOut2 : Frame :=
  ⟨["Supplier", "Price"],
   [[("Supplier", Cell.str "A"), ("Price", Cell.num 5)],
    [("Supplier", Cell.str "B"), ("Price", Cell.num 5)]]⟩

/-!
### Association-row lemmas

The pipeline's column operations act on rows keyed by column name; these
lemmas track `getCell` and the key sequence through each operation.
-/

theorem contains_mem {l : List String} {a : String} : l.contains a = true ↔ a ∈ l := by
  simp [List.contains, List.elem_iff]

theorem find?_filter_imp {α} (p q : α → Bool) (h : ∀ a, p a = true → q a = true) :
    ∀ l : List α, (l.filter q).find? p = l.find? p := by
  intro l
  induction l with
  | nil => rfl
  | cons a t ih =>
    by_cases hq : q a = true
    · by_cases hp : p a = true
      · simp [List.filter_cons, hq, List.find?_cons, hp]
      · simp only [Bool.not_eq_true] at hp
        simp [List.filter_cons, hq, List.find?_cons, hp, ih]
    · have hp : p a = false := by
        cases hpa : p a
        · rfl
        · exact absurd (h a hpa) hq
      simp only [Bool.not_eq_true] at hq
      simp [List.filter_cons, hq, List.find?_cons, hp, ih]

theorem getCell_map_preserve (u : String × Cell → String × Cell)
    (hfst : ∀ p, (u p).1 = p.1) (c' : String)
    (hval : ∀ p, p.1 = c' → (u p).2 = p.2) (r : Row) :
    getCell (r.map u) c' = getCell r c' := by
  induction r with
  | nil => rfl
  | cons p t ih =>
    by_cases hp : p.1 = c'
    · have h1 : ((u p).1 == c') = true := by simp [hfst p, hp]
      have h2 : (p.1 == c') = true := by simp [hp]
      simp only [List.map_cons, getCell, List.find?_cons, h1, h2, hval p hp]
    · have h1 : ((u p).1 == c') = false := by simp [hfst p, hp]
      have h2 : (p.1 == c') = false := by simp [hp]
      simpa only [List.map_cons, getCell, List.find?_cons, h1, h2] using ih

theorem getCell_dropRow (cs : List String) (r : Row) (c : String)
    (hc : cs.contains c = false) : getCell (dropRow cs r) c = getCell r c := by
  unfold getCell dropRow
  rw [find?_filter_imp]
  intro p hp
  have hpc : p.1 = c := by simpa using hp
  rw [hpc, hc]
  rfl

theorem getCell_selectRow (cs : List String) (r : Row) (c : String) (hc : c ∈ cs) :
    getCell (selectRow cs r) c = getCell r c := by
  induction cs with
  | nil => cases hc
  | cons b t ih =>
    by_cases hb : b = c
    · subst hb
      simp [selectRow, getCell, List.find?_cons]
    · have hct : c ∈ t := by
        rcases List.mem_cons.mp hc with h | h
        · exact absurd h.symm hb
        · exact h
      have := ih hct
      simpa [selectRow, getCell, List.find?_cons, hb] using this

theorem getCell_setRowVal_ne (c : String) (v : Cell) (r : Row) (c' : String)
    (h : c' ≠ c) : getCell (setRowVal c v r) c' = getCell r c' := by
  apply getCell_map_preserve
  · intro p
    by_cases hp : p.1 = c <;> simp [hp]
  · intro p hp
    have : ¬p.1 = c := by rw [hp]; exact h
    simp [this]

theorem getCell_setRowVal_mem (c : String) (v : Cell) (r : Row)
    (h : c ∈ r.map Prod.fst) : getCell (setRowVal c v r) c = v := by
  induction r with
  | nil => cases h
  | cons p t ih =>
    by_cases hp : p.1 = c
    · simp [setRowVal, getCell, List.find?_cons, hp]
    · have hct : c ∈ t.map Prod.fst := by
        rcases List.mem_cons.mp h with hx | hx
        · exact absurd hx.symm hp
        · exact hx
      simpa [setRowVal, getCell, List.find?_cons, hp] using ih hct

theorem getCell_append_ne (r : Row) (c : String) (v : Cell) (c' : String)
    (h : c' ≠ c) : getCell (r ++ [(c, v)]) c' = getCell r c' := by
  unfold getCell
  rw [List.find?_append]
  have hone : List.find? (fun p => p.1 == c') [(c, v)] = none := by
    simp [List.find?_cons, Ne.symm h]
  rw [hone]
  cases List.find? (fun p => p.1 == c') r <;> rfl

theorem getCell_append_self (r : Row) (c : String) (v : Cell)
    (h : c ∉ r.map Prod.fst) : getCell (r ++ [(c, v)]) c = v := by
  unfold getCell
  rw [List.find?_append]
  have hr : List.find? (fun p => p.1 == c) r = none := by
    rw [List.find?_eq_none]
    intro p hp hpc
    exact h (List.mem_map.mpr ⟨p, hp, by simpa using hpc⟩)
  simp [hr, List.find?_cons]

theorem getCell_mapColRow_ne (c : String) (g : Cell → Cell) (r : Row) (c' : String)
    (h : c' ≠ c) : getCell (mapColRow c g r) c' = getCell r c' := by
  apply getCell_map_preserve
  · intro p
    by_cases hp : p.1 = c <;> simp [hp]
  · intro p hp
    have : ¬p.1 = c := by rw [hp]; exact h
    simp [this]

theorem getCell_mapColRow_self (c : String) (g : Cell → Cell) (r : Row)
    (hg : g Cell.nan = Cell.nan) : getCell (mapColRow c g r) c = g (getCell r c) := by
  induction r with
  | nil => simpa [mapColRow, getCell] using hg.symm
  | cons p t ih =>
    by_cases hp : p.1 = c
    · simp [mapColRow, getCell, List.find?_cons, hp]
    · simpa [mapColRow, getCell, List.find?_cons, hp] using ih

theorem keys_dropRow (cs : List String) (r : Row) :
    (dropRow cs r).map Prod.fst = (r.map Prod.fst).filter (fun k => !cs.contains k) := by
  unfold dropRow
  rw [List.filter_map]
  rfl

theorem keys_selectRow (cs : List String) (r : Row) :
    (selectRow cs r).map Prod.fst = cs := by
  unfold selectRow
  rw [List.map_map]
  induction cs with
  | nil => rfl
  | cons a t ih => simpa using ih

theorem keys_setRowVal (c : String) (v : Cell) (r : Row) :
    (setRowVal c v r).map Prod.fst = r.map Prod.fst := by
  unfold setRowVal
  rw [List.map_map]
  apply List.map_congr_left
  intro p _
  by_cases hp : p.1 = c <;> simp [hp]

theorem keys_mapColRow (c : String) (g : Cell → Cell) (r : Row) :
    (mapColRow c g r).map Prod.fst = r.map Prod.fst := by
  unfold mapColRow
  rw [List.map_map]
  apply List.map_congr_left
  intro p _
  by_cases hp : p.1 = c <;> simp [hp]

theorem keys_append_single (r : Row) (c : String) (v : Cell) :
    (r ++ [(c, v)]).map Prod.fst = r.map Prod.fst ++ [c] := by
  simp

theorem selectRow_self (r : Row) (h : (r.map Prod.fst).Nodup) :
    selectRow (r.map Prod.fst) r = r := by
  induction r with
  | nil => rfl
  | cons p t ih =>
    have hnd := h
    rw [List.map_cons, List.nodup_cons] at hnd
    have hhead : getCell (p :: t) p.1 = p.2 := by
      simp [getCell, List.find?_cons]
    have htail : (t.map Prod.fst).map (fun c => (c, getCell (p :: t) c)) =
        (t.map Prod.fst).map (fun c => (c, getCell t c)) := by
      apply List.map_congr_left
      intro c hc
      have hcp : ¬p.1 = c := fun he => hnd.1 (he ▸ hc)
      simp [getCell, List.find?_cons, hcp]
    calc selectRow (List.map Prod.fst (p :: t)) (p :: t)
        = (p.1, p.2) :: (t.map Prod.fst).map (fun c => (c, getCell (p :: t) c)) := by
          simp [selectRow, hhead]
      _ = (p.1, p.2) :: selectRow (t.map Prod.fst) t := by rw [htail]; rfl
      _ = p :: t := by rw [ih hnd.2]

theorem zipWith_map_same {α β γ δ : Type} (g : α → β → γ) (F : δ → α) (V : δ → β)
    (l : List δ) :
    List.zipWith g (l.map F) (l.map V) = l.map (fun a => g (F a) (V a)) := by
  induction l with
  | nil => rfl
  | cons a t ih => simp [ih]

theorem hasCol_mk (h : List String) (rows : List Row) (c : String) :
    (⟨h, rows⟩ : Frame).hasCol c = h.contains c := rfl

theorem gasCanon_header (p : Frame) : (gasCanon p).header = gasHOut p.header := rfl

theorem gasCanon_rows (p : Frame) : (gasCanon p).rows = p.rows.map (gasRowOut p.header) := rfl

theorem elecCanon_header (p : Frame) : (elecCanon p).header = elecSel p.header := rfl

theorem elecCanon_rows (p : Frame) :
    (elecCanon p).rows = p.rows.map (selectRow (elecSel p.header)) := rfl

theorem setCol_inplace_map (c : String) (h : List String) (rows : List Row)
    (V : Row → Cell) (F : Row → Row) (hc : h.contains c = true) :
    setCol c (rows.map V) (⟨h, rows.map F⟩ : Frame) =
      ⟨h, rows.map (fun r => setRowVal c (V r) (F r))⟩ := by
  simp only [setCol, hasCol_mk, hc, if_true, zipWith_map_same]

theorem setCol_append_map (c : String) (h : List String) (rows : List Row)
    (V : Row → Cell) (F : Row → Row) (hc : h.contains c = false) :
    setCol c (rows.map V) (⟨h, rows.map F⟩ : Frame) =
      ⟨h ++ [c], rows.map (fun r => F r ++ [(c, V r)])⟩ := by
  simp only [setCol, hasCol_mk, hc, Bool.false_eq_true, if_false, zipWith_map_same]

/-!
### Characterization of the two pipelines
-/

theorem elecDropSeq_eq (cs : List String) (f : Frame) :
    elecDropSeq cs f = Except.ok (elecDropT cs f) := by
  induction cs generalizing f with
  | nil => rfl
  | cons c t ih =>
    by_cases hc : f.hasCol c = true
    · have hc' : f.header.contains c = true := hc
      have hall : ([c].all f.header.contains) = true := by
        simp only [List.all_cons, List.all_nil, hc', Bool.and_true]
      simp only [elecDropSeq, elecDropT, hc, if_pos, dropCols, hall, Bind.bind, Except.bind]
      exact ih _
    · simp only [elecDropSeq, elecDropT, hc, if_neg]
      exact ih f

theorem elecSel_sub (h : List String) : (elecSel h).all h.contains = true := by
  rw [List.all_eq_true]
  intro c hcmem
  rcases List.mem_append.mp hcmem with h1 | h2
  · exact (List.mem_filter.mp h1).2
  · exact contains_mem.mpr (List.mem_filter.mp h2).1

theorem elecColumnPhase_eq (f5 : Frame) :
    elecColumnPhase f5 = Except.ok (elecCanon f5) := by
  unfold elecColumnPhase selectCols
  have hsel := elecSel_sub f5.header
  simp only [elecSel] at hsel
  rw [if_pos hsel]
  rfl

theorem normalizeElec_eq (f : Frame) :
    normalizeElec f =
      Except.ok (elecCanon (priceStep (elecFilters (elecDropT elecInfoCols f)))) := by
  unfold normalizeElec
  rw [elecDropSeq_eq]
  simp only [Bind.bind, Except.bind]
  exact elecColumnPhase_eq _

theorem normalizeElecK_eq (srt : List Row → List Row) (f : Frame) :
    normalizeElecK srt f =
      Except.ok (elecCanon (priceStepK srt (elecFilters (elecDropT elecInfoCols f)))) := by
  unfold normalizeElecK
  rw [elecDropSeq_eq]
  simp only [Bind.bind, Except.bind]
  exact elecColumnPhase_eq _

theorem gasCtr_mem (h : List String) : ∀ c ∈ gasCtr h, c ∈ h := by
  intro c hc
  unfold gasCtr at hc
  rcases List.mem_append.mp hc with h1 | h2
  · rcases List.mem_append.mp h1 with hmi | hcf
    · by_cases hb : h.contains "More info" = true
      · rw [if_pos hb] at hmi
        have : c = "More info" := List.mem_singleton.mp hmi
        rw [this]
        exact contains_mem.mp hb
      · rw [if_neg hb] at hmi
        cases hmi
    · by_cases hb : h.contains "Cancellation Fee" = true
      · rw [if_pos hb] at hcf
        have : c = "Cancellation Fee" := List.mem_singleton.mp hcf
        rw [this]
        exact contains_mem.mp hb
      · rw [if_neg hb] at hcf
        cases hcf
  · exact (List.mem_filter.mp h2).1

theorem gasCtr_all (h : List String) : (gasCtr h).all h.contains = true := by
  rw [List.all_eq_true]
  intro c hc
  exact contains_mem.mpr (gasCtr_mem h c hc)

theorem dropRow_nil (r : Row) : dropRow [] r = r := by
  unfold dropRow
  apply List.filter_eq_self.mpr
  intro p _
  rfl

theorem map_dropRow_nil (l : List Row) : l.map (dropRow []) = l := by
  induction l with
  | nil => rfl
  | cons r t ih => rw [List.map_cons, dropRow_nil, ih]

theorem gasH7_of_empty {h : List String} (he : gasCtr h = []) : gasH7 h = h := by
  unfold gasH7
  rw [he]
  apply List.filter_eq_self.mpr
  intro a _
  rfl

theorem mi_mem_gasCtr {h : List String} (hmi : h.contains "More info" = true) :
    "More info" ∈ gasCtr h := by
  unfold gasCtr
  rw [if_pos hmi]
  exact List.mem_append.mpr (Or.inl (List.mem_append.mpr (Or.inl (List.mem_singleton.mpr rfl))))

theorem mi_not_mem_gasH7 {h : List String} (hmi : h.contains "More info" = true) :
    "More info" ∉ gasH7 h := by
  intro hm
  have hflt := (List.mem_filter.mp hm).2
  rw [contains_mem.mpr (mi_mem_gasCtr hmi)] at hflt
  cases hflt

theorem mi_not_mem_gasH8 {h : List String} (hmi : h.contains "More info" = true) :
    "More info" ∉ gasH8 (gasH7 h) := by
  unfold gasH8
  by_cases hb : prioCols.all (gasH7 h).contains = true
  · rw [if_pos hb]
    intro hm
    rcases List.mem_append.mp hm with h1 | h2
    · revert h1
      decide
    · exact mi_not_mem_gasH7 hmi (List.mem_filter.mp h2).1
  · rw [if_neg hb]
    exact mi_not_mem_gasH7 hmi

theorem gasSel_sub (h7 : List String) (hb : prioCols.all h7.contains = true) :
    (prioCols ++ h7.filter (fun c => !prioCols.contains c)).all h7.contains = true := by
  rw [List.all_eq_true]
  intro c hc
  rcases List.mem_append.mp hc with h1 | h2
  · exact (List.all_eq_true.mp hb) c h1
  · exact contains_mem.mpr (List.mem_filter.mp h2).1

theorem gasDropStep_eq (p : Frame) :
    (if (gasCtr p.header).isEmpty = true then pure p
      else dropCols (gasCtr p.header) p) =
      Except.ok (⟨gasH7 p.header, p.rows.map (dropRow (gasCtr p.header))⟩ : Frame) := by
  by_cases hce : (gasCtr p.header).isEmpty = true
  · have hctr : gasCtr p.header = [] := by simpa using hce
    rw [if_pos hce]
    rw [show (⟨gasH7 p.header, p.rows.map (dropRow (gasCtr p.header))⟩ : Frame) =
      (⟨p.header, p.rows⟩ : Frame) from by
        rw [gasH7_of_empty hctr, hctr, map_dropRow_nil]]
    rfl
  · rw [if_neg hce]
    unfold dropCols
    rw [if_pos (gasCtr_all p.header)]
    rfl

theorem gasSelStep_eq (p : Frame) :
    (if prioCols.all (gasH7 p.header).contains = true then
      selectCols (prioCols ++ (gasH7 p.header).filter (fun c => !prioCols.contains c))
        (⟨gasH7 p.header, p.rows.map (dropRow (gasCtr p.header))⟩ : Frame)
      else pure (⟨gasH7 p.header, p.rows.map (dropRow (gasCtr p.header))⟩ : Frame)) =
      Except.ok (⟨gasH8 (gasH7 p.header), p.rows.map (gasRow8 p.header)⟩ : Frame) := by
  by_cases hb : prioCols.all (gasH7 p.header).contains = true
  · rw [if_pos hb]
    unfold selectCols
    rw [if_pos (gasSel_sub (gasH7 p.header) hb)]
    have hrows : (p.rows.map (dropRow (gasCtr p.header))).map
        (selectRow (prioCols ++ (gasH7 p.header).filter (fun c => !prioCols.contains c))) =
        p.rows.map (gasRow8 p.header) := by
      rw [List.map_map]
      apply List.map_congr_left
      intro r _
      show selectRow _ (dropRow (gasCtr p.header) r) = gasRow8 p.header r
      unfold gasRow8
      rw [if_pos hb]
    have hhdr : gasH8 (gasH7 p.header) =
        prioCols ++ (gasH7 p.header).filter (fun c => !prioCols.contains c) := by
      unfold gasH8
      rw [if_pos hb]
    rw [hhdr, hrows]
  · rw [if_neg hb]
    have hrows : p.rows.map (dropRow (gasCtr p.header)) = p.rows.map (gasRow8 p.header) := by
      apply List.map_congr_left
      intro r _
      show dropRow (gasCtr p.header) r = gasRow8 p.header r
      unfold gasRow8
      rw [if_neg hb]
    have hhdr : gasH8 (gasH7 p.header) = gasH7 p.header := by
      unfold gasH8
      rw [if_neg hb]
    rw [show (⟨gasH8 (gasH7 p.header), p.rows.map (gasRow8 p.header)⟩ : Frame) =
      (⟨gasH7 p.header, p.rows.map (dropRow (gasCtr p.header))⟩ : Frame) from by
        rw [hhdr, hrows]]
    rfl

theorem gasColumnPhase_eq (p : Frame) (hnr : miRaises p = false) :
    gasColumnPhase p = Except.ok (gasCanon p) := by
  simp only [gasColumnPhase]
  rw [gasDropStep_eq]
  simp only [Except.bind]
  rw [gasSelStep_eq]
  simp only [Except.bind]
  by_cases hmi : p.header.contains "More info" = true
  · have hcv : colVals? p "More info" =
        some (p.rows.map (fun r => getCell r "More info")) := by
      unfold colVals?
      rw [if_pos (show p.hasCol "More info" = true from hmi)]
    rw [hcv]
    simp only [gasDerive]
    have hmn : miNumeric (p.rows.map (fun r => getCell r "More info")) = false := by
      unfold miRaises at hnr
      rw [show p.hasCol "More info" = true from hmi] at hnr
      simpa using hnr
    rw [hmn, if_neg (by decide : ¬(false = true))]
    have hcolF : (p.rows.map (fun r => getCell r "More info")).map fillNa =
        p.rows.map gasMIv := by
      rw [List.map_map]
      rfl
    have hvals : (p.rows.map gasMIv).map
        (fun c => if matchesNC c then Cell.str "Yes" else Cell.str "No") =
        p.rows.map gasNCOv := by
      rw [List.map_map]
      rfl
    rw [hcolF, hvals]
    by_cases hb9 : (gasH8 (gasH7 p.header)).contains "New Customers only" = true
    · rw [setCol_inplace_map "New Customers only" (gasH8 (gasH7 p.header)) p.rows
        gasNCOv (gasRow8 p.header) hb9]
      have hmi9 : (gasH8 (gasH7 p.header)).contains "More info" = false := by
        rw [Bool.eq_false_iff]
        intro hcon
        exact mi_not_mem_gasH8 hmi (contains_mem.mp hcon)
      rw [setCol_append_map "More info" (gasH8 (gasH7 p.header)) p.rows gasMIv
        (fun r => setRowVal "New Customers only" (gasNCOv r) (gasRow8 p.header r)) hmi9]
      have hrows : p.rows.map (gasRowOut p.header) = p.rows.map (fun r =>
          setRowVal "New Customers only" (gasNCOv r) (gasRow8 p.header r) ++
            [("More info", gasMIv r)]) := by
        apply List.map_congr_left
        intro r _
        unfold gasRowOut
        rw [if_pos hmi, if_pos hb9]
      have hhdr : gasHOut p.header = gasH8 (gasH7 p.header) ++ ["More info"] := by
        unfold gasHOut
        rw [if_pos hmi, if_pos hb9]
      rw [show gasCanon p = ⟨gasH8 (gasH7 p.header) ++ ["More info"],
          p.rows.map (fun r =>
            setRowVal "New Customers only" (gasNCOv r) (gasRow8 p.header r) ++
              [("More info", gasMIv r)])⟩ from by
        unfold gasCanon
        rw [hhdr, hrows]]
    · have hb9f : (gasH8 (gasH7 p.header)).contains "New Customers only" = false :=
        Bool.eq_false_iff.mpr hb9
      rw [setCol_append_map "New Customers only" (gasH8 (gasH7 p.header)) p.rows
        gasNCOv (gasRow8 p.header) hb9f]
      have hmi9 : ((gasH8 (gasH7 p.header) ++ ["New Customers only"]).contains "More info") = false := by
        rw [Bool.eq_false_iff]
        intro hcon
        rcases List.mem_append.mp (contains_mem.mp hcon) with h1 | h2
        · exact mi_not_mem_gasH8 hmi h1
        · have h3 : ("More info" : String) = "New Customers only" := List.mem_singleton.mp h2
          revert h3
          decide
      rw [setCol_append_map "More info" (gasH8 (gasH7 p.header) ++ ["New Customers only"]) p.rows
        gasMIv (fun r => gasRow8 p.header r ++ [("New Customers only", gasNCOv r)]) hmi9]
      have hrows : p.rows.map (gasRowOut p.header) = p.rows.map (fun r =>
          (gasRow8 p.header r ++ [("New Customers only", gasNCOv r)]) ++
            [("More info", gasMIv r)]) := by
        apply List.map_congr_left
        intro r _
        unfold gasRowOut
        rw [if_pos hmi, hb9f]
        rfl
      have hhdr : gasHOut p.header =
          (gasH8 (gasH7 p.header) ++ ["New Customers only"]) ++ ["More info"] := by
        unfold gasHOut
        rw [if_pos hmi, hb9f]
        rfl
      rw [show gasCanon p = ⟨(gasH8 (gasH7 p.header) ++ ["New Customers only"]) ++ ["More info"],
          p.rows.map (fun r =>
            (gasRow8 p.header r ++ [("New Customers only", gasNCOv r)]) ++
              [("More info", gasMIv r)])⟩ from by
        unfold gasCanon
        rw [hhdr, hrows]]
  · have hmif : p.header.contains "More info" = false := Bool.eq_false_iff.mpr hmi
    have hcv : colVals? p "More info" = none := by
      unfold colVals?
      rw [show p.hasCol "More info" = false from hmif]
      rfl
    rw [hcv]
    simp only [gasDerive]
    have hrows : p.rows.map (gasRowOut p.header) = p.rows.map (gasRow8 p.header) := by
      apply List.map_congr_left
      intro r _
      unfold gasRowOut
      rw [hmif]
      rfl
    have hhdr : gasHOut p.header = gasH8 (gasH7 p.header) := by
      unfold gasHOut
      rw [hmif]
      rw [if_neg (by decide : ¬(false = true))]
    rw [show gasCanon p = ⟨gasH8 (gasH7 p.header), p.rows.map (gasRow8 p.header)⟩ from by
      unfold gasCanon
      rw [hhdr, hrows]]

theorem gasColumnPhase_raises (p : Frame) (hr : miRaises p = true) :
    gasColumnPhase p = Except.error "AttributeError" := by
  unfold miRaises at hr
  rw [Bool.and_eq_true] at hr
  have hmi : p.header.contains "More info" = true := hr.1
  have hmn : miNumeric (p.rows.map (fun r => getCell r "More info")) = true := hr.2
  simp only [gasColumnPhase]
  rw [gasDropStep_eq]
  simp only [Except.bind]
  rw [gasSelStep_eq]
  simp only [Except.bind]
  have hcv : colVals? p "More info" =
      some (p.rows.map (fun r => getCell r "More info")) := by
    unfold colVals?
    rw [if_pos (show p.hasCol "More info" = true from hmi)]
  rw [hcv]
  simp only [gasDerive]
  rw [hmn, if_pos rfl]

theorem normalizeGas_eq (f : Frame)
    (hnr : miRaises (priceStep (gasFilters f)) = false) :
    normalizeGas f = Except.ok (gasCanon (priceStep (gasFilters f))) :=
  gasColumnPhase_eq _ hnr

theorem normalizeGasK_eq (srt : List Row → List Row) (f : Frame)
    (hnr : miRaises (priceStepK srt (gasFilters f)) = false) :
    normalizeGasK srt f = Except.ok (gasCanon (priceStepK srt (gasFilters f))) :=
  gasColumnPhase_eq _ hnr

theorem normalizeGas_raises (f : Frame)
    (hr : miRaises (priceStep (gasFilters f)) = true) :
    normalizeGas f = Except.error "AttributeError" :=
  gasColumnPhase_raises _ hr

theorem normalizeGasK_raises (srt : List Row → List Row) (f : Frame)
    (hr : miRaises (priceStepK srt (gasFilters f)) = true) :
    normalizeGasK srt f = Except.error "AttributeError" :=
  gasColumnPhase_raises _ hr

/-!
### Filter-phase characterization
-/

theorem filterEq_eq (c v : String) (f : Frame) :
    filterEq c v f = ⟨f.header, f.rows.filter (appliesEq f.header c v)⟩ := by
  unfold filterEq appliesEq
  by_cases hc : f.hasCol c = true
  · rw [if_pos hc]
    have hc' : f.header.contains c = true := hc
    congr 1
    apply List.filter_congr
    intro r _
    rw [hc']
    rfl
  · rw [if_neg hc]
    have hc' : f.header.contains c = false := Bool.eq_false_iff.mpr hc
    have : f.rows.filter (fun r => !f.header.contains c || cellEqStr (getCell r c) v) =
        f.rows := by
      apply List.filter_eq_self.mpr
      intro r _
      rw [hc']
      rfl
    rw [this]

theorem filterCancBlank_eq (f : Frame) :
    filterCancBlank f = ⟨f.header, f.rows.filter (fun r =>
      !f.header.contains "Cancellation Fee" ||
        cancKeep (getCell r "Cancellation Fee"))⟩ := by
  unfold filterCancBlank
  by_cases hc : f.hasCol "Cancellation Fee" = true
  · rw [if_pos hc]
    have hc' : f.header.contains "Cancellation Fee" = true := hc
    congr 1
    apply List.filter_congr
    intro r _
    rw [hc']
    rfl
  · rw [if_neg hc]
    have hc' : f.header.contains "Cancellation Fee" = false := Bool.eq_false_iff.mpr hc
    have : f.rows.filter (fun r =>
        !f.header.contains "Cancellation Fee" || cancKeep (getCell r "Cancellation Fee")) =
        f.rows := by
      apply List.filter_eq_self.mpr
      intro r _
      rw [hc']
      rfl
    rw [this]

theorem elecFilters_eq (f : Frame) :
    elecFilters f = ⟨f.header, f.rows.filter (elecPred f.header)⟩ := by
  unfold elecFilters baseFilters
  rw [filterEq_eq, filterEq_eq, filterEq_eq]
  simp only [List.filter_filter]
  congr 1
  apply List.filter_congr
  intro r _
  simp only [elecPred]
  generalize appliesEq f.header "Service Type" "Residential" r = b1
  generalize appliesEq f.header "Type" "Fixed" r = b2
  generalize appliesEq f.header "Monthly Fee" "No" r = b3
  revert b1 b2 b3
  decide

theorem gasFilters_eq (f : Frame) :
    gasFilters f = ⟨f.header, f.rows.filter (gasPred f.header)⟩ := by
  unfold gasFilters baseFilters
  rw [filterEq_eq, filterEq_eq, filterEq_eq, filterCancBlank_eq, filterEq_eq]
  simp only [List.filter_filter]
  congr 1
  apply List.filter_congr
  intro r _
  simp only [gasPred, elecPred]
  generalize appliesEq f.header "Service Type" "Residential" r = b1
  generalize appliesEq f.header "Type" "Fixed" r = b2
  generalize appliesEq f.header "Monthly Fee" "No" r = b3
  generalize (!f.header.contains "Cancellation Fee" ||
    cancKeep (getCell r "Cancellation Fee")) = b4
  generalize appliesEq f.header "Discounts/Incentives Available" "No" r = b5
  revert b1 b2 b3 b4 b5
  decide

/-!
### Header membership, length, and ordering lemmas
-/

theorem mem_gasCtr_cases {h : List String} {c : String} (hc : c ∈ gasCtr h) :
    c = "More info" ∨ c = "Cancellation Fee" ∨
      (c ∈ h ∧ strContains c "Unnamed" = true) := by
  unfold gasCtr at hc
  rcases List.mem_append.mp hc with h1 | h2
  · rcases List.mem_append.mp h1 with hmi | hcf
    · left
      by_cases hb : h.contains "More info" = true
      · rw [if_pos hb] at hmi
        exact List.mem_singleton.mp hmi
      · rw [if_neg hb] at hmi
        cases hmi
    · right
      left
      by_cases hb : h.contains "Cancellation Fee" = true
      · rw [if_pos hb] at hcf
        exact List.mem_singleton.mp hcf
      · rw [if_neg hb] at hcf
        cases hcf
  · right
    right
    exact ⟨(List.mem_filter.mp h2).1, (List.mem_filter.mp h2).2⟩

theorem not_mem_gasCtr {h : List String} {c : String} (h1 : c ≠ "More info")
    (h2 : c ≠ "Cancellation Fee") (h3 : strContains c "Unnamed" = false) :
    (gasCtr h).contains c = false := by
  rw [Bool.eq_false_iff]
  intro hcon
  rcases mem_gasCtr_cases (contains_mem.mp hcon) with hx | hx | hx
  · exact h1 hx
  · exact h2 hx
  · rw [h3] at hx
    cases hx.2

theorem mem_gasH7 {h : List String} {c : String} (hc : c ∈ gasH7 h) :
    c ∈ h ∧ c ∉ gasCtr h := by
  have := List.mem_filter.mp hc
  refine ⟨this.1, fun hmem => ?_⟩
  rw [contains_mem.mpr hmem] at this
  cases this.2

theorem mem_gasH8_cases {h7 : List String} {c : String} (hc : c ∈ gasH8 h7) :
    c ∈ prioCols ∨ c ∈ h7 := by
  unfold gasH8 at hc
  by_cases hb : prioCols.all h7.contains = true
  · rw [if_pos hb] at hc
    rcases List.mem_append.mp hc with h1 | h2
    · exact Or.inl h1
    · exact Or.inr (List.mem_filter.mp h2).1
  · rw [if_neg hb] at hc
    exact Or.inr hc

theorem mem_gasHOut_cases {h : List String} {c : String} (hc : c ∈ gasHOut h) :
    c ∈ prioCols ∨ c ∈ gasH7 h ∨ c = "New Customers only" ∨ c = "More info" := by
  unfold gasHOut at hc
  by_cases hmi : h.contains "More info" = true
  · rw [if_pos hmi] at hc
    rcases List.mem_append.mp hc with h1 | h2
    · by_cases hb9 : (gasH8 (gasH7 h)).contains "New Customers only" = true
      · rw [if_pos hb9] at h1
        rcases mem_gasH8_cases h1 with hx | hx
        · exact Or.inl hx
        · exact Or.inr (Or.inl hx)
      · rw [if_neg hb9] at h1
        rcases List.mem_append.mp h1 with hy | hy
        · rcases mem_gasH8_cases hy with hx | hx
          · exact Or.inl hx
          · exact Or.inr (Or.inl hx)
        · exact Or.inr (Or.inr (Or.inl (List.mem_singleton.mp hy)))
    · exact Or.inr (Or.inr (Or.inr (List.mem_singleton.mp h2)))
  · rw [if_neg hmi] at hc
    rcases mem_gasH8_cases hc with hx | hx
    · exact Or.inl hx
    · exact Or.inr (Or.inl hx)

theorem mem_gasHOut_mem {h : List String} {c : String} (hc : c ∈ gasHOut h)
    (h1 : c ∉ prioCols ∨ c ∈ h) (h2 : c ≠ "New Customers only") (h3 : c ≠ "More info") :
    c ∈ h := by
  rcases mem_gasHOut_cases hc with hx | hx | hx | hx
  · rcases h1 with hp | hp
    · exact absurd hx hp
    · exact hp
  · exact (mem_gasH7 hx).1
  · exact absurd hx h2
  · exact absurd hx h3

theorem cf_not_mem_gasHOut (h : List String) : "Cancellation Fee" ∉ gasHOut h := by
  intro hc
  rcases mem_gasHOut_cases hc with hx | hx | hx | hx
  · revert hx
    decide
  · rcases mem_gasH7 hx with ⟨hmem, hnot⟩
    apply hnot
    unfold gasCtr
    rw [if_pos (contains_mem.mpr hmem)]
    exact List.mem_append.mpr (Or.inl (List.mem_append.mpr (Or.inr (List.mem_singleton.mpr rfl))))
  · revert hx
    decide
  · revert hx
    decide

theorem gasHOut_last_mi {h : List String} (hmi : h.contains "More info" = true) :
    (gasHOut h).getLast? = some "More info" := by
  unfold gasHOut
  rw [if_pos hmi]
  exact List.getLast?_concat _

theorem priceStep_len (f : Frame) : (priceStep f).rows.length = f.rows.length := by
  unfold priceStep
  by_cases hp : f.hasCol "Price" = true
  · rw [if_pos hp]
    show ((f.rows.map (mapColRow "Price" toNumeric)).mergeSort rowLe).length = _
    rw [(List.mergeSort_perm _ _).length_eq, List.length_map]
  · rw [if_neg hp]

theorem priceStep_header (f : Frame) : (priceStep f).header = f.header := by
  unfold priceStep
  by_cases hp : f.hasCol "Price" = true
  · rw [if_pos hp]
  · rw [if_neg hp]

theorem optLe_trans (a b c : Option Rat) (h1 : optLe a b = true) (h2 : optLe b c = true) :
    optLe a c = true := by
  cases a <;> cases b <;> cases c <;> simp_all [optLe]
  exact le_trans h1 h2

theorem optLe_total (a b : Option Rat) : (optLe a b || optLe b a) = true := by
  cases a with
  | none => cases b <;> simp [optLe]
  | some qa =>
    cases b with
    | none => simp [optLe]
    | some qb =>
      rcases le_total qa qb with h | h <;> simp [optLe, h]

theorem rowLe_trans (a b c : Row) (h1 : rowLe a b = true) (h2 : rowLe b c = true) :
    rowLe a c = true := optLe_trans _ _ _ h1 h2

theorem rowLe_total (a b : Row) : (rowLe a b || rowLe b a) = true := optLe_total _ _

theorem priceStep_sorted (f : Frame) (hp : f.hasCol "Price" = true) :
    List.Pairwise (fun a b => rowLe a b = true) (priceStep f).rows := by
  unfold priceStep
  rw [if_pos hp]
  exact List.sorted_mergeSort rowLe_trans rowLe_total _

/-!
### Cell preservation through the column phase; well-formedness
-/

theorem getCell_gasRow8 (h : List String) (r : Row) (n : String)
    (hctr : (gasCtr h).contains n = false)
    (hsel : n ∈ prioCols ∨ n ∈ gasH7 h) :
    getCell (gasRow8 h r) n = getCell r n := by
  unfold gasRow8
  by_cases hb : prioCols.all (gasH7 h).contains = true
  · rw [if_pos hb]
    have hmem : n ∈ prioCols ++ (gasH7 h).filter (fun c => !prioCols.contains c) := by
      by_cases hp : n ∈ prioCols
      · exact List.mem_append.mpr (Or.inl hp)
      · rcases hsel with hs | hs
        · exact absurd hs hp
        · refine List.mem_append.mpr (Or.inr (List.mem_filter.mpr ⟨hs, ?_⟩))
          rw [Bool.eq_false_iff.mpr (fun hcon => hp (contains_mem.mp hcon))]
          rfl
    rw [getCell_selectRow _ _ _ hmem, getCell_dropRow _ _ _ hctr]
  · rw [if_neg hb]
    exact getCell_dropRow _ _ _ hctr

theorem getCell_gasRowOut (h : List String) (r : Row) (n : String)
    (hctr : (gasCtr h).contains n = false)
    (hsel : n ∈ prioCols ∨ n ∈ gasH7 h)
    (hnco : n ≠ "New Customers only") (hmi : n ≠ "More info") :
    getCell (gasRowOut h r) n = getCell r n := by
  unfold gasRowOut
  by_cases hmic : h.contains "More info" = true
  · rw [if_pos hmic, getCell_append_ne _ _ _ _ hmi]
    by_cases hb9 : (gasH8 (gasH7 h)).contains "New Customers only" = true
    · rw [if_pos hb9, getCell_setRowVal_ne _ _ _ _ hnco]
      exact getCell_gasRow8 h r n hctr hsel
    · rw [if_neg hb9, getCell_append_ne _ _ _ _ hnco]
      exact getCell_gasRow8 h r n hctr hsel
  · rw [if_neg hmic]
    exact getCell_gasRow8 h r n hctr hsel

theorem getCell_gasRowOut_price (h : List String) (r : Row) :
    getCell (gasRowOut h r) "Price" = getCell r "Price" := by
  apply getCell_gasRowOut
  · exact not_mem_gasCtr (by decide) (by decide) (by decide)
  · exact Or.inl (by decide)
  · decide
  · decide

theorem mem_elecSel {h : List String} {c : String} (hc : c ∈ elecSel h) : c ∈ h := by
  unfold elecSel at hc
  rcases List.mem_append.mp hc with h1 | h2
  · exact contains_mem.mp (List.mem_filter.mp h1).2
  · exact (List.mem_filter.mp h2).1

theorem price_mem_elecSel {h : List String} (hp : h.contains "Price" = true) :
    "Price" ∈ elecSel h := by
  unfold elecSel
  exact List.mem_append.mpr (Or.inl (List.mem_filter.mpr ⟨by decide, hp⟩))

theorem getCell_elecSel_price {h : List String} (hp : h.contains "Price" = true) (r : Row) :
    getCell (selectRow (elecSel h) r) "Price" = getCell r "Price" :=
  getCell_selectRow _ _ _ (price_mem_elecSel hp)

theorem gasFilters_WF {f : Frame} (hwf : f.WF) : (gasFilters f).WF := by
  rw [gasFilters_eq]
  intro r hr
  exact hwf r (List.mem_filter.mp hr).1

theorem elecFilters_WF {f : Frame} (hwf : f.WF) : (elecFilters f).WF := by
  rw [elecFilters_eq]
  intro r hr
  exact hwf r (List.mem_filter.mp hr).1

theorem priceStep_WF {f : Frame} (hwf : f.WF) : (priceStep f).WF := by
  unfold priceStep
  by_cases hp : f.hasCol "Price" = true
  · rw [if_pos hp]
    intro r hr
    have hr2 : r ∈ f.rows.map (mapColRow "Price" toNumeric) :=
      (List.mergeSort_perm _ _).mem_iff.mp hr
    rcases List.mem_map.mp hr2 with ⟨r0, hr0, hre⟩
    rw [← hre, keys_mapColRow]
    exact hwf r0 hr0
  · rw [if_neg hp]
    exact hwf

theorem keys_gasRow8 (h : List String) (r : Row) (hk : r.map Prod.fst = h) :
    (gasRow8 h r).map Prod.fst = gasH8 (gasH7 h) := by
  unfold gasRow8 gasH8
  by_cases hb : prioCols.all (gasH7 h).contains = true
  · rw [if_pos hb, if_pos hb, keys_selectRow]
  · rw [if_neg hb, if_neg hb, keys_dropRow, hk]
    rfl

theorem keys_gasRowOut (h : List String) (r : Row) (hk : r.map Prod.fst = h) :
    (gasRowOut h r).map Prod.fst = gasHOut h := by
  unfold gasRowOut gasHOut
  by_cases hmic : h.contains "More info" = true
  · rw [if_pos hmic, if_pos hmic]
    by_cases hb9 : (gasH8 (gasH7 h)).contains "New Customers only" = true
    · rw [if_pos hb9, if_pos hb9, keys_append_single, keys_setRowVal, keys_gasRow8 h r hk]
    · rw [if_neg hb9, if_neg hb9, keys_append_single, keys_append_single,
        keys_gasRow8 h r hk]
  · rw [if_neg hmic, if_neg hmic]
    exact keys_gasRow8 h r hk

theorem gasCanon_WF {p : Frame} (hwf : p.WF) : (gasCanon p).WF := by
  intro r hr
  rcases List.mem_map.mp hr with ⟨r0, hr0, hre⟩
  rw [← hre]
  exact keys_gasRowOut p.header r0 (hwf r0 hr0)

theorem elecCanon_WF (p : Frame) : (elecCanon p).WF := by
  intro r hr
  rcases List.mem_map.mp hr with ⟨r0, _, hre⟩
  rw [← hre, keys_selectRow]
  rfl

theorem gasCanon_sorted {p : Frame} (hsort : List.Pairwise (fun a b => rowLe a b = true) p.rows) :
    List.Pairwise (fun a b => rowLe a b = true) (gasCanon p).rows := by
  show List.Pairwise _ (p.rows.map (gasRowOut p.header))
  rw [List.pairwise_map]
  apply hsort.imp
  intro a b hab
  show rowLe (gasRowOut p.header a) (gasRowOut p.header b) = true
  unfold rowLe priceKeyR
  rw [getCell_gasRowOut_price, getCell_gasRowOut_price]
  exact hab

theorem elecCanon_sorted {p : Frame}
    (hsort : List.Pairwise (fun a b => rowLe a b = true) p.rows) :
    List.Pairwise (fun a b => rowLe a b = true) (elecCanon p).rows := by
  show List.Pairwise _ (p.rows.map (selectRow (elecSel p.header)))
  rw [List.pairwise_map]
  apply hsort.imp
  intro a b hab
  show rowLe (selectRow (elecSel p.header) a) (selectRow (elecSel p.header) b) = true
  by_cases hp : p.header.contains "Price" = true
  · unfold rowLe priceKeyR
    rw [getCell_elecSel_price hp, getCell_elecSel_price hp]
    exact hab
  · unfold rowLe priceKeyR
    have hnp : "Price" ∉ elecSel p.header := by
      intro hmem
      exact absurd (contains_mem.mpr (mem_elecSel hmem)) hp
    have hval : ∀ r : Row, getCell (selectRow (elecSel p.header) r) "Price" = Cell.nan := by
      intro r
      unfold getCell
      have : (selectRow (elecSel p.header) r).find? (fun q => q.1 == "Price") = none := by
        rw [List.find?_eq_none]
        intro q hq hqe
        apply hnp
        have : q.1 ∈ (selectRow (elecSel p.header) r).map Prod.fst := List.mem_map_of_mem _ hq
        rw [keys_selectRow] at this
        rwa [show q.1 = "Price" from by simpa using hqe] at this
      rw [this]
    rw [hval, hval]
    rfl

/-!
### Bridging lemmas
-/

theorem gasFilters_header (f : Frame) : (gasFilters f).header = f.header := by
  rw [gasFilters_eq]

theorem elecFilters_header (f : Frame) : (elecFilters f).header = f.header := by
  rw [elecFilters_eq]

theorem normalizeGas_ok {f g : Frame} (h : normalizeGas f = Except.ok g) :
    g = gasCanon (priceStep (gasFilters f)) := by
  by_cases hr : miRaises (priceStep (gasFilters f)) = true
  · rw [normalizeGas_raises f hr] at h
    exact Except.noConfusion h
  · rw [normalizeGas_eq f (Bool.eq_false_iff.mpr hr)] at h
    exact (Except.ok.inj h).symm

theorem normalizeGasK_ok {srt : List Row → List Row} {f g : Frame}
    (h : normalizeGasK srt f = Except.ok g) :
    g = gasCanon (priceStepK srt (gasFilters f)) ∧
      miRaises (priceStepK srt (gasFilters f)) = false := by
  by_cases hr : miRaises (priceStepK srt (gasFilters f)) = true
  · rw [normalizeGasK_raises srt f hr] at h
    exact Except.noConfusion h
  · have hrf := Bool.eq_false_iff.mpr hr
    rw [normalizeGasK_eq srt f hrf] at h
    exact ⟨(Except.ok.inj h).symm, hrf⟩

theorem normalizeElec_ok {f g : Frame} (h : normalizeElec f = Except.ok g) :
    g = elecCanon (priceStep (elecFilters (elecDropT elecInfoCols f))) := by
  rw [normalizeElec_eq] at h
  exact (Except.ok.inj h).symm

theorem normalizeElecK_ok {srt : List Row → List Row} {f g : Frame}
    (h : normalizeElecK srt f = Except.ok g) :
    g = elecCanon (priceStepK srt (elecFilters (elecDropT elecInfoCols f))) := by
  rw [normalizeElecK_eq] at h
  exact (Except.ok.inj h).symm

theorem price_mem_gasH8 {h7 : List String} (hc : "Price" ∈ gasH8 h7) : "Price" ∈ h7 := by
  unfold gasH8 at hc
  by_cases hb : prioCols.all h7.contains = true
  · rw [if_pos hb] at hc
    rcases List.mem_append.mp hc with h1 | h2
    · exact contains_mem.mp (List.all_eq_true.mp hb "Price" (by decide))
    · exact (List.mem_filter.mp h2).1
  · rw [if_neg hb] at hc
    exact hc

theorem price_mem_gasHOut {h : List String} (hc : "Price" ∈ gasHOut h) :
    h.contains "Price" = true := by
  unfold gasHOut at hc
  have hred : "Price" ∈ gasH8 (gasH7 h) := by
    by_cases hmi : h.contains "More info" = true
    · rw [if_pos hmi] at hc
      rcases List.mem_append.mp hc with h1 | h2
      · by_cases hb9 : (gasH8 (gasH7 h)).contains "New Customers only" = true
        · rwa [if_pos hb9] at h1
        · rw [if_neg hb9] at h1
          rcases List.mem_append.mp h1 with hy | hy
          · exact hy
          · exact absurd (List.mem_singleton.mp hy) (by decide)
      · exact absurd (List.mem_singleton.mp h2) (by decide)
    · rwa [if_neg hmi] at hc
  exact contains_mem.mpr (mem_gasH7 (price_mem_gasH8 hred)).1

theorem elecDropT_header_sub (cs : List String) (f : Frame) :
    ∀ c, c ∈ (elecDropT cs f).header → c ∈ f.header := by
  induction cs generalizing f with
  | nil => intro c hc; exact hc
  | cons a t ih =>
    intro c hc
    unfold elecDropT at hc
    by_cases ha : f.hasCol a = true
    · rw [if_pos ha] at hc
      exact (List.mem_filter.mp (ih _ c hc)).1
    · rw [if_neg ha] at hc
      exact ih f c hc

theorem elecDropT_not_mem (cs : List String) (f : Frame) (c : String) (hc : c ∈ cs) :
    c ∉ (elecDropT cs f).header := by
  induction cs generalizing f with
  | nil => cases hc
  | cons a t ih =>
    intro hmem
    unfold elecDropT at hmem
    rcases List.mem_cons.mp hc with hca | hct
    · subst hca
      by_cases ha : f.hasCol c = true
      · rw [if_pos ha] at hmem
        have := elecDropT_header_sub t _ c hmem
        have h2 := (List.mem_filter.mp this).2
        rw [show ([c].contains c) = true from by simp] at h2
        cases h2
      · rw [if_neg ha] at hmem
        have := elecDropT_header_sub t f c hmem
        exact absurd (contains_mem.mpr this) ha
    · by_cases ha : f.hasCol a = true
      · rw [if_pos ha] at hmem
        exact ih _ hct hmem
      · rw [if_neg ha] at hmem
        exact ih f hct hmem

/-!
### Claim theorems
-/

unseal List.mergeSort List.merge in
/-- C1 counterexample: for the electricity category, a raw export whose
"More info" column is not in final position keeps it in place — the
electricity pipeline never relocates "More info", so the claimed
"More info is always the last output column for either category" fails. -/
theorem C1_counterexample :
    normalizeElec ⟨["Supplier", "Price", "Term Length", "More info", "Z"], []⟩ =
      Except.ok ⟨["Supplier", "Price", "Term Length", "More info", "Z"], []⟩ ∧
    "More info" ∈ (["Supplier", "Price", "Term Length", "More info", "Z"] : List String) ∧
    (["Supplier", "Price", "Term Length", "More info", "Z"] : List String).getLast? ≠
      some "More info" := by
  refine ⟨?_, by decide, by decide⟩
  rw [normalizeElec_eq]
  congr 1

/-- C1 (amended): "Cancellation Fee" never appears in gas output; when the
gas input has a "More info" column it is the last output column; the three
informational columns never appear in electricity output.  (The electricity
pipeline does not relocate "More info"; that clause of the original claim
holds only for the gas category.) -/
theorem C1_column_invariant :
    (∀ f g, normalizeGas f = Except.ok g →
      "Cancellation Fee" ∉ g.header ∧
      (f.header.contains "More info" = true → g.header.getLast? = some "More info")) ∧
    (∀ f g, normalizeElec f = Except.ok g →
      "PA Wind" ∉ g.header ∧ "Renewable Energy" ∉ g.header ∧
        "Contact Phone Number" ∉ g.header) := by
  constructor
  · intro f g hok
    rw [normalizeGas_ok hok]
    constructor
    · exact cf_not_mem_gasHOut _
    · intro hmi
      apply gasHOut_last_mi
      rw [priceStep_header, gasFilters_header]
      exact hmi
  · intro f g hok
    rw [normalizeElec_ok hok]
    have hsub : ∀ c, c ∈ (elecCanon (priceStep (elecFilters (elecDropT elecInfoCols f)))).header →
        c ∈ (elecDropT elecInfoCols f).header := by
      intro c hc
      have h1 := mem_elecSel hc
      rw [priceStep_header, elecFilters_header] at h1
      exact h1
    refine ⟨fun hc => ?_, fun hc => ?_, fun hc => ?_⟩
    · exact elecDropT_not_mem elecInfoCols f "PA Wind" (by decide) (hsub _ hc)
    · exact elecDropT_not_mem elecInfoCols f "Renewable Energy" (by decide) (hsub _ hc)
    · exact elecDropT_not_mem elecInfoCols f "Contact Phone Number" (by decide) (hsub _ hc)

unseal List.mergeSort List.merge in
/-- C1 witness: the amended claim applied to a concrete gas export. -/
theorem C1_column_invariant_witness :
    "Cancellation Fee" ∉
        (⟨["Supplier", "Price", "Term Length", "New Customers only", "More info"],
          []⟩ : Frame).header ∧
      ((⟨["Supplier", "Price", "Term Length", "Cancellation Fee", "More info"],
          []⟩ : Frame).header.contains "More info" = true →
        (⟨["Supplier", "Price", "Term Length", "New Customers only", "More info"],
          []⟩ : Frame).header.getLast? = some "More info") :=
  C1_column_invariant.1
    ⟨["Supplier", "Price", "Term Length", "Cancellation Fee", "More info"], []⟩
    ⟨["Supplier", "Price", "Term Length", "New Customers only", "More info"], []⟩
    (by rw [normalizeGas_eq _ (by decide)]; congr 1)

/-- C9: the gas blank-Cancellation-Fee predicate keeps exactly the cells
that are NaN, the empty string, or the literal text "nan"; in particular a
numeric fee is never kept, and when the column is present the filter keeps
exactly the rows whose Cancellation Fee cell satisfies that predicate. -/
theorem C9_canc_blank :
    (∀ c : Cell, cancKeep c = true ↔
      (c = Cell.nan ∨ c = Cell.str "" ∨ c = Cell.str "nan")) ∧
    ∀ f : Frame, f.header.contains "Cancellation Fee" = true →
      filterCancBlank f = ⟨f.header,
        f.rows.filter (fun r => cancKeep (getCell r "Cancellation Fee"))⟩ := by
  constructor
  · intro c
    cases c with
    | nan => simp [cancKeep, cellIsNa]
    | str s =>
      simp only [cancKeep, cellIsNa, cellEqStr, cellAstype, Bool.false_or]
      constructor
      · intro hor
        rcases Bool.or_eq_true_iff.mp hor with h1 | h1
        · right
          left
          rw [show s = "" from by simpa using h1]
        · right
          right
          rw [show s = "nan" from by simpa using h1]
      · intro hor
        rcases hor with h1 | h1 | h1
        · cases h1
        · rw [show s = "" from by simpa using h1]
          rfl
        · rw [show s = "nan" from by simpa using h1]
          rfl
    | num q =>
      have hne : ("num " ++ toString q) ≠ "nan" := by
        intro he
        have hlen := congrArg String.length he
        rw [String.length_append] at hlen
        rw [show ("num " : String).length = 4 from rfl,
          show ("nan" : String).length = 3 from rfl] at hlen
        omega
      simp only [cancKeep, cellIsNa, cellEqStr, cellAstype, Bool.false_or]
      constructor
      · intro hbe
        exact absurd (by simpa using hbe) hne
      · rintro (h1 | h1 | h1) <;> cases h1
  · intro f hc
    unfold filterCancBlank
    rw [if_pos (show f.hasCol "Cancellation Fee" = true from hc)]

/-- C9 witness: the Cancellation Fee filter applied to a concrete gas frame
with a blank, a "nan"-text, and a numeric-text fee. -/
theorem C9_canc_blank_witness :
    filterCancBlank
        ⟨["Supplier", "Cancellation Fee"],
         [[("Supplier", Cell.str "A"), ("Cancellation Fee", Cell.nan)],
          [("Supplier", Cell.str "B"), ("Cancellation Fee", Cell.str "nan")],
          [("Supplier", Cell.str "C"), ("Cancellation Fee", Cell.str "100")]]⟩ =
      ⟨(⟨["Supplier", "Cancellation Fee"],
         [[("Supplier", Cell.str "A"), ("Cancellation Fee", Cell.nan)],
          [("Supplier", Cell.str "B"), ("Cancellation Fee", Cell.str "nan")],
          [("Supplier", Cell.str "C"), ("Cancellation Fee", Cell.str "100")]]⟩ : Frame).header,
       (⟨["Supplier", "Cancellation Fee"],
         [[("Supplier", Cell.str "A"), ("Cancellation Fee", Cell.nan)],
          [("Supplier", Cell.str "B"), ("Cancellation Fee", Cell.str "nan")],
          [("Supplier", Cell.str "C"), ("Cancellation Fee", Cell.str "100")]]⟩ : Frame).rows.filter
         (fun r => cancKeep (getCell r "Cancellation Fee"))⟩ :=
  C9_canc_blank.2
    ⟨["Supplier", "Cancellation Fee"],
     [[("Supplier", Cell.str "A"), ("Cancellation Fee", Cell.nan)],
      [("Supplier", Cell.str "B"), ("Cancellation Fee", Cell.str "nan")],
      [("Supplier", Cell.str "C"), ("Cancellation Fee", Cell.str "100")]]⟩
    (by decide)

/-!
### C2 and C4 infrastructure
-/

theorem bool_eq_of_iff {a b : Bool} (h : a = true ↔ b = true) : a = b := by
  cases a <;> cases b <;> simp_all

theorem singleton_contains_false {c n : String} (hne : n ≠ c) :
    ([c].contains n) = false := by
  rw [Bool.eq_false_iff]
  intro hcon
  exact hne (List.mem_singleton.mp (contains_mem.mp hcon))

theorem contains_filter_ne {h : List String} {c n : String} (hne : n ≠ c) :
    (h.filter (fun x => !([c].contains x))).contains n = h.contains n := by
  apply bool_eq_of_iff
  constructor
  · intro hc
    exact contains_mem.mpr (List.mem_filter.mp (contains_mem.mp hc)).1
  · intro hc
    refine contains_mem.mpr (List.mem_filter.mpr ⟨contains_mem.mp hc, ?_⟩)
    rw [singleton_contains_false hne]
    rfl

theorem elecPred_dropstep (c : String) (h : List String) (r : Row)
    (h1 : c ≠ "Service Type") (h2 : c ≠ "Type") (h3 : c ≠ "Monthly Fee") :
    elecPred (h.filter (fun x => !([c].contains x))) (dropRow [c] r) = elecPred h r := by
  unfold elecPred appliesEq
  rw [contains_filter_ne (Ne.symm h1), contains_filter_ne (Ne.symm h2),
    contains_filter_ne (Ne.symm h3),
    getCell_dropRow [c] r _ (singleton_contains_false (Ne.symm h1)),
    getCell_dropRow [c] r _ (singleton_contains_false (Ne.symm h2)),
    getCell_dropRow [c] r _ (singleton_contains_false (Ne.symm h3))]

theorem elecDropT_count (cs : List String) (f : Frame)
    (hcs : ∀ c ∈ cs, c ≠ "Service Type" ∧ c ≠ "Type" ∧ c ≠ "Monthly Fee") :
    ((elecDropT cs f).rows.filter (elecPred (elecDropT cs f).header)).length =
      (f.rows.filter (elecPred f.header)).length := by
  induction cs generalizing f with
  | nil => rfl
  | cons a t ih =>
    have ha := hcs a (List.mem_cons_self a t)
    unfold elecDropT
    by_cases hc : f.hasCol a = true
    · rw [if_pos hc]
      rw [ih _ (fun c hcmem => hcs c (List.mem_cons_of_mem a hcmem))]
      show ((f.rows.map (dropRow [a])).filter
        (elecPred (f.header.filter (fun x => !([a].contains x))))).length = _
      rw [List.filter_map, List.length_map]
      congr 1
      apply List.filter_congr
      intro r _
      exact elecPred_dropstep a f.header r ha.1 ha.2.1 ha.2.2
    · rw [if_neg hc]
      exact ih f (fun c hcmem => hcs c (List.mem_cons_of_mem a hcmem))

/-- C2: the filter phases keep exactly the rows satisfying the conjunction
of the applicable predicates (each applicable only when its column is
present), and the full pipelines neither drop nor add any further row. -/
theorem C2_filter_correctness :
    ∀ f : Frame,
      (gasFilters f).header = f.header ∧
      (gasFilters f).rows = f.rows.filter (gasPred f.header) ∧
      (elecFilters f).header = f.header ∧
      (elecFilters f).rows = f.rows.filter (elecPred f.header) ∧
      (∀ g, normalizeGas f = Except.ok g →
        g.rows.length = (f.rows.filter (gasPred f.header)).length) ∧
      (∀ g, normalizeElec f = Except.ok g →
        g.rows.length = (f.rows.filter (elecPred f.header)).length) := by
  intro f
  refine ⟨gasFilters_header f, ?_, elecFilters_header f, ?_, ?_, ?_⟩
  · rw [gasFilters_eq]
  · rw [elecFilters_eq]
  · intro g hok
    rw [normalizeGas_ok hok]
    show ((priceStep (gasFilters f)).rows.map _).length = _
    rw [List.length_map, priceStep_len, gasFilters_eq]
  · intro g hok
    rw [normalizeElec_ok hok]
    show ((priceStep (elecFilters (elecDropT elecInfoCols f))).rows.map _).length = _
    rw [List.length_map, priceStep_len, elecFilters_eq]
    show ((elecDropT elecInfoCols f).rows.filter
      (elecPred (elecDropT elecInfoCols f).header)).length = _
    rw [elecDropT_count]
    intro c hc
    fin_cases hc <;> exact ⟨by decide, by decide, by decide⟩

/-- C4: in both pipelines the output Price keys are non-decreasing with all
unparseable (NaN) prices sorting after every parseable price, and no row is
dropped by the Price step — the output row count equals the filtered row
count. -/
theorem C4_price_ordering :
    (∀ f g, normalizeGas f = Except.ok g →
      ("Price" ∈ g.header → List.Pairwise (fun a b => optLe a b = true) (priceList g)) ∧
      g.rows.length = (gasFilters f).rows.length) ∧
    (∀ f g, normalizeElec f = Except.ok g →
      ("Price" ∈ g.header → List.Pairwise (fun a b => optLe a b = true) (priceList g)) ∧
      g.rows.length = (elecFilters (elecDropT elecInfoCols f)).rows.length) := by
  constructor
  · intro f g hok
    have hge := normalizeGas_ok hok
    constructor
    · intro hp
      rw [hge] at hp ⊢
      have hp2 : (gasFilters f).header.contains "Price" = true := by
        have := price_mem_gasHOut
          (show "Price" ∈ gasHOut (priceStep (gasFilters f)).header from hp)
        rwa [priceStep_header] at this
      have hsorted := priceStep_sorted (gasFilters f) hp2
      have hcs := gasCanon_sorted hsorted
      unfold priceList
      rw [List.pairwise_map]
      exact hcs
    · rw [hge]
      show ((priceStep (gasFilters f)).rows.map _).length = _
      rw [List.length_map, priceStep_len]
  · intro f g hok
    have hge := normalizeElec_ok hok
    constructor
    · intro hp
      rw [hge] at hp ⊢
      have hp2 : (elecFilters (elecDropT elecInfoCols f)).header.contains "Price" = true := by
        have := mem_elecSel
          (show "Price" ∈ elecSel (priceStep (elecFilters (elecDropT elecInfoCols f))).header
            from hp)
        rw [priceStep_header] at this
        exact contains_mem.mpr this
      have hsorted := priceStep_sorted (elecFilters (elecDropT elecInfoCols f)) hp2
      have hcs := elecCanon_sorted hsorted
      unfold priceList
      rw [List.pairwise_map]
      exact hcs
    · rw [hge]
      show ((priceStep (elecFilters (elecDropT elecInfoCols f))).rows.map _).length = _
      rw [List.length_map, priceStep_len]

unseal List.mergeSort List.merge in
/-- C2 witness: filter correctness at the sample export. -/
theorem C2_filter_correctness_witness :
    sampleGasOut.rows.length =
      (sampleExport.rows.filter (gasPred sampleExport.header)).length :=
  (C2_filter_correctness sampleExport).2.2.2.2.1 sampleGasOut
    (by rw [normalizeGas_eq _ (by decide)]; congr 1)

unseal List.mergeSort List.merge in
/-- C4 witness: price ordering and row preservation at the sample export. -/
theorem C4_price_ordering_witness :
    List.Pairwise (fun a b => optLe a b = true) (priceList sampleGasOut) ∧
      sampleGasOut.rows.length = (gasFilters sampleExport).rows.length :=
  ⟨((C4_price_ordering.1 sampleExport sampleGasOut
      (by rw [normalizeGas_eq _ (by decide)]; congr 1)).1 (by decide)),
   (C4_price_ordering.1 sampleExport sampleGasOut
      (by rw [normalizeGas_eq _ (by decide)]; congr 1)).2⟩

theorem nco_not_mi : ("More info" : String) ≠ "New Customers only" := by decide

/-- C5 (amended): in the gas pipeline, whenever the input has a "More info"
column, every output row carries the derived "New Customers only" column,
equal to "Yes" exactly when the row's (NaN-filled) "More info" text contains
"for new customers" case-insensitively; when "More info" is absent the gas
pipeline adds no derived column; the electricity pipeline never derives the
column at all. -/
theorem C5_derived_column :
    (∀ f g, f.WF → f.header.contains "More info" = true →
      normalizeGas f = Except.ok g →
      "New Customers only" ∈ g.header ∧ "More info" ∈ g.header ∧
      ∀ r ∈ g.rows,
        getCell r "New Customers only" =
          (if matchesNC (getCell r "More info") then Cell.str "Yes" else Cell.str "No")) ∧
    (∀ f g, f.header.contains "More info" = false →
      normalizeGas f = Except.ok g → "New Customers only" ∈ g.header →
        "New Customers only" ∈ f.header) ∧
    (∀ f g, normalizeElec f = Except.ok g → "New Customers only" ∈ g.header →
      "New Customers only" ∈ f.header) := by
  refine ⟨?_, ?_, ?_⟩
  · intro f g hwf hmi0 hok
    have hp : (priceStep (gasFilters f)).header = f.header := by
      rw [priceStep_header, gasFilters_header]
    have hmi : (priceStep (gasFilters f)).header.contains "More info" = true := by
      rw [hp]
      exact hmi0
    have hwfp : (priceStep (gasFilters f)).WF := priceStep_WF (gasFilters_WF hwf)
    rw [normalizeGas_ok hok]
    refine ⟨?_, ?_, ?_⟩
    · rw [gasCanon_header]
      unfold gasHOut
      rw [if_pos hmi]
      apply List.mem_append.mpr
      left
      by_cases hb9 : (gasH8 (gasH7 (priceStep (gasFilters f)).header)).contains
          "New Customers only" = true
      · rw [if_pos hb9]
        exact contains_mem.mp hb9
      · rw [if_neg hb9]
        exact List.mem_append.mpr (Or.inr (List.mem_singleton.mpr rfl))
    · rw [gasCanon_header]
      unfold gasHOut
      rw [if_pos hmi]
      exact List.mem_append.mpr (Or.inr (List.mem_singleton.mpr rfl))
    · rw [gasCanon_rows]
      intro r hr
      rcases List.mem_map.mp hr with ⟨r0, hr0, hre⟩
      have hk0 : r0.map Prod.fst = (priceStep (gasFilters f)).header := hwfp r0 hr0
      rw [← hre]
      unfold gasRowOut
      rw [if_pos hmi]
      by_cases hb9 : (gasH8 (gasH7 (priceStep (gasFilters f)).header)).contains
          "New Customers only" = true
      · rw [if_pos hb9]
        have hkeys : (setRowVal "New Customers only" (gasNCOv r0)
            (gasRow8 (priceStep (gasFilters f)).header r0)).map Prod.fst =
            gasH8 (gasH7 (priceStep (gasFilters f)).header) := by
          rw [keys_setRowVal, keys_gasRow8 _ _ hk0]
        have hmiB : getCell (setRowVal "New Customers only" (gasNCOv r0)
            (gasRow8 (priceStep (gasFilters f)).header r0) ++
              [("More info", gasMIv r0)]) "More info" = gasMIv r0 := by
          apply getCell_append_self
          rw [hkeys]
          exact mi_not_mem_gasH8 hmi
        have hmiA : getCell (setRowVal "New Customers only" (gasNCOv r0)
            (gasRow8 (priceStep (gasFilters f)).header r0) ++
              [("More info", gasMIv r0)]) "New Customers only" = gasNCOv r0 := by
          rw [getCell_append_ne _ _ _ _ nco_not_mi.symm]
          apply getCell_setRowVal_mem
          rw [keys_gasRow8 _ _ hk0]
          exact contains_mem.mp hb9
        rw [hmiA, hmiB]
        rfl
      · rw [if_neg hb9]
        have hkeys : (gasRow8 (priceStep (gasFilters f)).header r0 ++
            [("New Customers only", gasNCOv r0)]).map Prod.fst =
            gasH8 (gasH7 (priceStep (gasFilters f)).header) ++ ["New Customers only"] := by
          rw [keys_append_single, keys_gasRow8 _ _ hk0]
        have hmiB : getCell ((gasRow8 (priceStep (gasFilters f)).header r0 ++
            [("New Customers only", gasNCOv r0)]) ++
              [("More info", gasMIv r0)]) "More info" = gasMIv r0 := by
          apply getCell_append_self
          rw [hkeys]
          intro hmem
          rcases List.mem_append.mp hmem with h1 | h2
          · exact mi_not_mem_gasH8 hmi h1
          · exact nco_not_mi (List.mem_singleton.mp h2)
        have hmiA : getCell ((gasRow8 (priceStep (gasFilters f)).header r0 ++
            [("New Customers only", gasNCOv r0)]) ++
              [("More info", gasMIv r0)]) "New Customers only" = gasNCOv r0 := by
          rw [getCell_append_ne _ _ _ _ nco_not_mi.symm]
          apply getCell_append_self
          rw [keys_gasRow8 _ _ hk0]
          intro hmem
          rw [contains_mem.mpr hmem] at hb9
          exact hb9 rfl
        rw [hmiA, hmiB]
        rfl
  · intro f g hmi0 hok hmem
    have hmi : (priceStep (gasFilters f)).header.contains "More info" = false := by
      rw [priceStep_header, gasFilters_header]
      exact hmi0
    rw [normalizeGas_ok hok, gasCanon_header] at hmem
    have hmem2 : "New Customers only" ∈ gasH8 (gasH7 (priceStep (gasFilters f)).header) := by
      unfold gasHOut at hmem
      rw [hmi] at hmem
      simpa using hmem
    rcases mem_gasH8_cases hmem2 with h1 | h1
    · exact absurd h1 (by decide)
    · have := (mem_gasH7 h1).1
      rw [priceStep_header, gasFilters_header] at this
      exact this
  · intro f g hok hmem
    rw [normalizeElec_ok hok, elecCanon_header] at hmem
    have h1 := mem_elecSel hmem
    rw [priceStep_header, elecFilters_header] at h1
    exact elecDropT_header_sub elecInfoCols f _ h1

unseal List.mergeSort List.merge in
/-- C5 counterexample: the electricity pipeline never derives
"New Customers only", even when the input's "More info" text contains
"for new customers" — contradicting the claimed behaviour "for every input
row of either category". -/
theorem C5_counterexample :
    normalizeElec sampleExport = Except.ok sampleElecOut ∧
    matchesNC (getCell (sampleExport.rows.getD 0 []) "More info") = true ∧
    "New Customers only" ∉ sampleElecOut.header := by
  refine ⟨?_, by decide, by decide⟩
  rw [normalizeElec_eq]
  congr 1

unseal List.mergeSort List.merge in
/-- C5 witness: the amended claim at the sample gas export. -/
theorem C5_derived_column_witness :
    "New Customers only" ∈ sampleGasOut.header ∧
    getCell (sampleGasOut.rows.getD 1 []) "New Customers only" =
      (if matchesNC (getCell (sampleGasOut.rows.getD 1 []) "More info") then
        Cell.str "Yes" else Cell.str "No") := by
  have h := C5_derived_column.1 sampleExport sampleGasOut
    (by unfold Frame.WF; decide) (by decide)
    (by rw [normalizeGas_eq _ (by decide)]; congr 1)
  exact ⟨h.1, h.2.2 (sampleGasOut.rows.getD 1 []) (by decide)⟩

/-!
### Retry model lemmas
-/

theorem powerRunAux_length (o : Nat → Outcome) (m d : Nat) :
    ∀ fuel idx pend, (powerRunAux o m d fuel idx pend).length ≤ fuel := by
  intro fuel
  induction fuel with
  | zero =>
    intro idx pend
    simp [powerRunAux]
  | succ n ih =>
    intro idx pend
    simp only [powerRunAux]
    cases ho : o idx
    · simp
    · have := ih (idx + 1) 0
      simp only [List.length_cons]
      omega
    · have := ih (idx + 1) (if idx < m then d else 0)
      simp only [List.length_cons]
      omega

theorem powerRunAux_id_ge (o : Nat → Outcome) (m d : Nat) :
    ∀ fuel idx pend x, x ∈ powerRunAux o m d fuel idx pend → idx ≤ x.driverId := by
  intro fuel
  induction fuel with
  | zero =>
    intro idx pend x hx
    simp [powerRunAux] at hx
  | succ n ih =>
    intro idx pend x hx
    simp only [powerRunAux] at hx
    cases ho : o idx <;> rw [ho] at hx
    · rw [List.mem_singleton.mp hx]
    · rcases List.mem_cons.mp hx with h | h
      · rw [h]
      · have := ih (idx + 1) 0 x h
        omega
    · rcases List.mem_cons.mp hx with h | h
      · rw [h]
      · have := ih (idx + 1) (if idx < m then d else 0) x h
        omega

theorem powerRunAux_pairwise (o : Nat → Outcome) (m d : Nat) :
    ∀ fuel idx pend, List.Pairwise (fun a b : AttemptRec => a.driverId < b.driverId)
      (powerRunAux o m d fuel idx pend) := by
  intro fuel
  induction fuel with
  | zero =>
    intro idx pend
    simp [powerRunAux]
  | succ n ih =>
    intro idx pend
    simp only [powerRunAux]
    cases ho : o idx
    · simp
    · refine List.Pairwise.cons ?_ (ih (idx + 1) 0)
      intro b hb
      have := powerRunAux_id_ge o m d n (idx + 1) 0 b hb
      show idx < b.driverId
      omega
    · refine List.Pairwise.cons ?_ (ih (idx + 1) (if idx < m then d else 0))
      intro b hb
      have := powerRunAux_id_ge o m d n (idx + 1) _ b hb
      show idx < b.driverId
      omega

theorem powerRunAux_head_sleep (o : Nat → Outcome) (m d : Nat) :
    ∀ fuel idx pend b, (powerRunAux o m d fuel idx pend).head? = some b →
      b.sleepBefore = pend := by
  intro fuel
  cases fuel with
  | zero =>
    intro idx pend b hb
    simp [powerRunAux] at hb
  | succ n =>
    intro idx pend b hb
    simp only [powerRunAux] at hb
    cases ho : o idx <;> rw [ho] at hb <;>
      simp only [List.head?_cons, Option.some.injEq] at hb <;> rw [← hb]

theorem powerRunAux_chain (o : Nat → Outcome) (m d : Nat) :
    ∀ fuel idx pend, idx + fuel = m + 1 →
      List.Chain' (fun a b : AttemptRec =>
        b.sleepBefore = (if a.outcome = Outcome.failExc then d else 0))
        (powerRunAux o m d fuel idx pend) := by
  intro fuel
  induction fuel with
  | zero =>
    intro idx pend _
    simp [powerRunAux]
  | succ n ih =>
    intro idx pend hinv
    simp only [powerRunAux]
    cases ho : o idx
    · simp
    · rw [List.chain'_cons']
      refine ⟨?_, ih (idx + 1) 0 (by omega)⟩
      intro b hb
      have hsl := powerRunAux_head_sleep o m d n (idx + 1) 0 b hb
      show b.sleepBefore = (if Outcome.failStep = Outcome.failExc then d else 0)
      rw [hsl]
      rfl
    · rw [List.chain'_cons']
      refine ⟨?_, ih (idx + 1) _ (by omega)⟩
      intro b hb
      have hsl := powerRunAux_head_sleep o m d n (idx + 1) _ b hb
      show b.sleepBefore = (if Outcome.failExc = Outcome.failExc then d else 0)
      rw [hsl]
      have hnem : powerRunAux o m d n (idx + 1) (if idx < m then d else 0) ≠ [] := by
        intro hnil
        rw [hnil] at hb
        cases hb
      have hn1 : 1 ≤ n := by
        by_contra hn0
        have : n = 0 := by omega
        rw [this] at hnem
        exact hnem rfl
      rw [if_pos (by omega), if_pos rfl]

theorem gasRunAux_id (o : Nat → Bool) (dd delay : Nat) :
    ∀ fuel idx pend x, x ∈ (gasRunAux o dd delay fuel idx pend).1 → x.driverId = dd := by
  intro fuel
  induction fuel with
  | zero =>
    intro idx pend x hx
    simp [gasRunAux] at hx
  | succ n ih =>
    intro idx pend x hx
    simp only [gasRunAux] at hx
    by_cases ho : o idx = true
    · rw [if_pos ho] at hx
      rw [List.mem_singleton.mp hx]
    · rw [if_neg ho] at hx
      rcases List.mem_cons.mp hx with h | h
      · rw [h]
      · exact ih (idx + 1) delay x h

theorem gasRunAux_released (o : Nat → Bool) (dd delay : Nat) :
    ∀ fuel idx pend x, x ∈ (gasRunAux o dd delay fuel idx pend).1 → x.released = true := by
  intro fuel
  induction fuel with
  | zero =>
    intro idx pend x hx
    simp [gasRunAux] at hx
  | succ n ih =>
    intro idx pend x hx
    simp only [gasRunAux] at hx
    by_cases ho : o idx = true
    · rw [if_pos ho] at hx
      rw [List.mem_singleton.mp hx]
    · rw [if_neg ho] at hx
      rcases List.mem_cons.mp hx with h | h
      · rw [h]
      · exact ih (idx + 1) delay x h

theorem gasRunAux_length (o : Nat → Bool) (dd delay : Nat) :
    ∀ fuel idx pend, (gasRunAux o dd delay fuel idx pend).1.length ≤ fuel := by
  intro fuel
  induction fuel with
  | zero =>
    intro idx pend
    simp [gasRunAux]
  | succ n ih =>
    intro idx pend
    simp only [gasRunAux]
    by_cases ho : o idx = true
    · rw [if_pos ho]
      simp
    · rw [if_neg ho]
      have := ih (idx + 1) delay
      simp only [List.length_cons]
      omega

theorem gasRunAux_head_sleep (o : Nat → Bool) (dd delay : Nat) :
    ∀ fuel idx pend b, (gasRunAux o dd delay fuel idx pend).1.head? = some b →
      b.sleepBefore = pend := by
  intro fuel
  cases fuel with
  | zero =>
    intro idx pend b hb
    simp [gasRunAux] at hb
  | succ n =>
    intro idx pend b hb
    simp only [gasRunAux] at hb
    by_cases ho : o idx = true <;>
      [rw [if_pos ho] at hb; rw [if_neg ho] at hb] <;>
      simp only [List.head?_cons, Option.some.injEq] at hb <;> rw [← hb]

theorem gasRunAux_chain (o : Nat → Bool) (dd delay : Nat) :
    ∀ fuel idx pend, List.Chain' (fun _ b : AttemptRec => b.sleepBefore = delay)
      (gasRunAux o dd delay fuel idx pend).1 := by
  intro fuel
  induction fuel with
  | zero =>
    intro idx pend
    simp [gasRunAux]
  | succ n ih =>
    intro idx pend
    simp only [gasRunAux]
    by_cases ho : o idx = true
    · rw [if_pos ho]
      simp
    · rw [if_neg ho]
      rw [List.chain'_cons']
      refine ⟨?_, ih (idx + 1) delay⟩
      intro b hb
      exact gasRunAux_head_sleep o dd delay n (idx + 1) delay b hb

theorem gasRunAux_last_nil (o : Nat → Bool) (dd delay : Nat) :
    ∀ fuel idx pend, (gasRunAux o dd delay fuel idx pend).1 = [] → fuel = 0 := by
  intro fuel
  cases fuel with
  | zero => intro idx pend _; rfl
  | succ n =>
    intro idx pend hnil
    simp only [gasRunAux] at hnil
    by_cases ho : o idx = true
    · rw [if_pos ho] at hnil
      cases hnil
    · rw [if_neg ho] at hnil
      cases hnil

theorem gasMainAux_nil_m0 (o : Nat → Nat → Bool) (d : Nat) :
    ∀ fuel k pend, gasMainAux o 0 d fuel k pend = [] := by
  intro fuel
  induction fuel with
  | zero => intro k pend; rfl
  | succ n ih =>
    intro k pend
    simp only [gasMainAux]
    show (if (gasRun (o k) k 0 d pend).2 = true then (gasRun (o k) k 0 d pend).1
      else (gasRun (o k) k 0 d pend).1 ++ gasMainAux o 0 d n (k + 1) d) = []
    have h1 : gasRun (o k) k 0 d pend = ([], false) := rfl
    rw [h1]
    simp [ih]

theorem gasMainAux_length (o : Nat → Nat → Bool) (m d : Nat) :
    ∀ fuel k pend, (gasMainAux o m d fuel k pend).length ≤ fuel * m := by
  intro fuel
  induction fuel with
  | zero =>
    intro k pend
    simp [gasMainAux]
  | succ n ih =>
    intro k pend
    simp only [gasMainAux]
    have hrl : (gasRun (o k) k m d pend).1.length ≤ m := gasRunAux_length _ _ _ m 0 pend
    by_cases hs : (gasRun (o k) k m d pend).2 = true
    · rw [if_pos hs]
      calc (gasRun (o k) k m d pend).1.length ≤ m := hrl
        _ ≤ (n + 1) * m := by
          have : 1 * m ≤ (n + 1) * m := Nat.mul_le_mul_right m (by omega)
          omega
    · rw [if_neg hs]
      rw [List.length_append]
      have h2 := ih (k + 1) d
      have : (n + 1) * m = n * m + m := by ring
      omega

theorem gasMainAux_head_sleep (o : Nat → Nat → Bool) (m d : Nat) :
    ∀ fuel k pend b, (gasMainAux o m d fuel k pend).head? = some b →
      b.sleepBefore = pend := by
  intro fuel
  induction fuel with
  | zero =>
    intro k pend b hb
    simp [gasMainAux] at hb
  | succ n ih =>
    intro k pend b hb
    simp only [gasMainAux] at hb
    by_cases hs : (gasRun (o k) k m d pend).2 = true
    · rw [if_pos hs] at hb
      exact gasRunAux_head_sleep (o k) k d m 0 pend b hb
    · rw [if_neg hs] at hb
      cases hnil : (gasRun (o k) k m d pend).1 with
      | nil =>
        have hm0 : m = 0 := gasRunAux_last_nil (o k) k d m 0 pend hnil
        rw [hnil] at hb
        rw [List.nil_append] at hb
        rw [hm0, gasMainAux_nil_m0] at hb
        cases hb
      | cons a t =>
        rw [hnil, List.cons_append, List.head?_cons, Option.some.injEq] at hb
        rw [← hb]
        have hnil2 : (gasRunAux (o k) k d m 0 pend).1 = a :: t := hnil
        exact gasRunAux_head_sleep (o k) k d m 0 pend a (by rw [hnil2]; rfl)

theorem gasMainAux_chain (o : Nat → Nat → Bool) (m d : Nat) :
    ∀ fuel k pend, List.Chain' (fun _ b : AttemptRec => b.sleepBefore = d)
      (gasMainAux o m d fuel k pend) := by
  intro fuel
  induction fuel with
  | zero =>
    intro k pend
    simp [gasMainAux]
  | succ n ih =>
    intro k pend
    simp only [gasMainAux]
    by_cases hs : (gasRun (o k) k m d pend).2 = true
    · rw [if_pos hs]
      exact gasRunAux_chain (o k) k d m 0 pend
    · rw [if_neg hs]
      rw [List.chain'_append]
      refine ⟨gasRunAux_chain (o k) k d m 0 pend, ih (k + 1) d, ?_⟩
      intro x _ y hy
      exact gasMainAux_head_sleep o m d n (k + 1) d y hy

theorem gasMainAux_released (o : Nat → Nat → Bool) (m d : Nat) :
    ∀ fuel k pend x, x ∈ gasMainAux o m d fuel k pend → x.released = true := by
  intro fuel
  induction fuel with
  | zero =>
    intro k pend x hx
    simp [gasMainAux] at hx
  | succ n ih =>
    intro k pend x hx
    simp only [gasMainAux] at hx
    by_cases hs : (gasRun (o k) k m d pend).2 = true
    · rw [if_pos hs] at hx
      exact gasRunAux_released (o k) k d m 0 pend x hx
    · rw [if_neg hs] at hx
      rcases List.mem_append.mp hx with h | h
      · exact gasRunAux_released (o k) k d m 0 pend x h
      · exact ih (k + 1) d x h

theorem powerRunAux_released (o : Nat → Outcome) (m d : Nat) :
    ∀ fuel idx pend x, x ∈ powerRunAux o m d fuel idx pend → x.released = true := by
  intro fuel
  induction fuel with
  | zero =>
    intro idx pend x hx
    simp [powerRunAux] at hx
  | succ n ih =>
    intro idx pend x hx
    simp only [powerRunAux] at hx
    cases ho : o idx <;> rw [ho] at hx
    · rw [List.mem_singleton.mp hx]
    · rcases List.mem_cons.mp hx with h | h
      · rw [h]
      · exact ih (idx + 1) 0 x h
    · rcases List.mem_cons.mp hx with h | h
      · rw [h]
      · exact ih (idx + 1) _ x h

/-- C3 counterexample: with maxAttempts = 2, delay = 5 and every attempt
failing, the gas pipeline performs 4 workflow attempts (main retries run,
which itself retries), its first two attempts share one driver instance,
and the electricity loop sleeps 0 — not delay — between two attempts that
fail by step result. -/
theorem C3_counterexample :
    (gasMain (fun _ _ => false) 2 5).length = 4 ∧
    ¬((gasMain (fun _ _ => false) 2 5).length ≤ 2) ∧
    ((gasMain (fun _ _ => false) 2 5).getD 0 ⟨0, 0, Outcome.ok, true⟩).driverId =
      ((gasMain (fun _ _ => false) 2 5).getD 1 ⟨0, 0, Outcome.ok, true⟩).driverId ∧
    ((powerRun (fun _ => Outcome.failStep) 2 5).getD 1 ⟨0, 0, Outcome.ok, true⟩).sleepBefore =
      0 := by
  refine ⟨by decide, by decide, by decide, by decide⟩

/-- C3 (amended): the electricity retry loop performs at most `maxAttempts`
strictly sequential attempts, each with a freshly created driver, and sleeps
`delay` between consecutive attempts only when the earlier attempt raised an
exception (a step-failure `continue` skips the sleep).  The gas pipeline
performs at most `maxAttempts * maxAttempts` attempts in total (an outer
`main` retry loop around the scraper's own retry loop), all attempts within
one `run` call share the scraper's single driver instance, and `delay` is
slept before every attempt after the first. -/
theorem C3_retry_bound :
    (∀ (o : Nat → Outcome) (m d : Nat), (powerRun o m d).length ≤ m) ∧
    (∀ (o : Nat → Outcome) (m d : Nat),
      List.Pairwise (fun a b : AttemptRec => a.driverId ≠ b.driverId) (powerRun o m d)) ∧
    (∀ (o : Nat → Outcome) (m d : Nat),
      List.Chain' (fun a b : AttemptRec =>
        b.sleepBefore = (if a.outcome = Outcome.failExc then d else 0)) (powerRun o m d)) ∧
    (∀ (o : Nat → Bool) (dd m d p : Nat), ∀ x ∈ (gasRun o dd m d p).1, x.driverId = dd) ∧
    (∀ (o : Nat → Nat → Bool) (m d : Nat), (gasMain o m d).length ≤ m * m) ∧
    (∀ (o : Nat → Nat → Bool) (m d : Nat),
      List.Chain' (fun _ b : AttemptRec => b.sleepBefore = d) (gasMain o m d)) := by
  refine ⟨?_, ?_, ?_, ?_, ?_, ?_⟩
  · intro o m d
    exact powerRunAux_length o m d m 1 0
  · intro o m d
    exact (powerRunAux_pairwise o m d m 1 0).imp (fun hlt => Nat.ne_of_lt hlt)
  · intro o m d
    exact powerRunAux_chain o m d m 1 0 (by omega)
  · intro o dd m d p x hx
    exact gasRunAux_id o dd d m 0 p x hx
  · intro o m d
    exact gasMainAux_length o m d m 0 0
  · intro o m d
    exact gasMainAux_chain o m d m 0 0

/-- C3 witness: the amended bound at concrete parameters. -/
theorem C3_retry_bound_witness :
    (powerRun (fun _ => Outcome.failExc) 3 5).length ≤ 3 ∧
    (gasMain (fun _ _ => false) 3 5).length ≤ 3 * 3 :=
  ⟨C3_retry_bound.1 (fun _ => Outcome.failExc) 3 5,
   C3_retry_bound.2.2.2.2.1 (fun _ _ => false) 3 5⟩

/-- C6 counterexample: in one gas `run` call with maxAttempts = 3 and every
attempt failing, all three attempts use the same driver instance — the
capability is not scoped to a single attempt and is shared across
attempts. -/
theorem C6_counterexample :
    (gasRun (fun _ => false) 7 3 5 0).1.length = 3 ∧
    ((gasRun (fun _ => false) 7 3 5 0).1.getD 0 ⟨0, 0, Outcome.ok, true⟩).driverId =
      ((gasRun (fun _ => false) 7 3 5 0).1.getD 1 ⟨0, 0, Outcome.ok, true⟩).driverId ∧
    ((gasRun (fun _ => false) 7 3 5 0).1.getD 1 ⟨0, 0, Outcome.ok, true⟩).driverId =
      ((gasRun (fun _ => false) 7 3 5 0).1.getD 2 ⟨0, 0, Outcome.ok, true⟩).driverId := by
  refine ⟨by decide, by decide, by decide⟩

/-- C6 (amended): in the electricity scraper every attempt uses its own
fresh driver instance and quits it on every exit path before control
returns to the loop; in the gas scraper the driver is quit after every
attempt but is created once per scraper instance, so all attempts of one
`run` call share the same instance — only `main`'s outer iterations get
fresh instances. -/
theorem C6_capability_lifecycle :
    (∀ (o : Nat → Outcome) (m d : Nat),
      List.Pairwise (fun a b : AttemptRec => a.driverId ≠ b.driverId) (powerRun o m d) ∧
      ∀ x ∈ powerRun o m d, x.released = true) ∧
    (∀ (o : Nat → Bool) (dd m d p : Nat),
      ∀ x ∈ (gasRun o dd m d p).1, x.driverId = dd ∧ x.released = true) ∧
    (∀ (o : Nat → Nat → Bool) (m d : Nat), ∀ x ∈ gasMain o m d, x.released = true) := by
  refine ⟨?_, ?_, ?_⟩
  · intro o m d
    constructor
    · exact (powerRunAux_pairwise o m d m 1 0).imp (fun hlt => Nat.ne_of_lt hlt)
    · intro x hx
      exact powerRunAux_released o m d m 1 0 x hx
  · intro o dd m d p x hx
    exact ⟨gasRunAux_id o dd d m 0 p x hx, gasRunAux_released o dd d m 0 p x hx⟩
  · intro o m d x hx
    exact gasMainAux_released o m d m 0 0 x hx

/-- C6 witness: lifecycle facts at concrete parameters. -/
theorem C6_capability_lifecycle_witness :
    (∀ x ∈ (gasRun (fun _ => false) 7 2 5 0).1, x.driverId = 7 ∧ x.released = true) :=
  C6_capability_lifecycle.2.1 (fun _ => false) 7 2 5 0

/-!
### Presentation-layer lookup lemmas
-/

theorem foldMax_mem (ms : List (String × Int)) :
    ∀ m : String × Int,
      ms.foldl (fun acc p => if acc.2 < p.2 then p else acc) m ∈ m :: ms := by
  induction ms with
  | nil =>
    intro m
    simp
  | cons a t ih =>
    intro m
    simp only [List.foldl_cons]
    by_cases hc : m.2 < a.2
    · rw [if_pos hc]
      rcases List.mem_cons.mp (ih a) with h1 | h1
      · rw [h1]
        exact List.mem_cons.mpr (Or.inr (List.mem_cons.mpr (Or.inl rfl)))
      · exact List.mem_cons.mpr (Or.inr (List.mem_cons.mpr (Or.inr h1)))
    · rw [if_neg hc]
      rcases List.mem_cons.mp (ih m) with h1 | h1
      · rw [h1]
        exact List.mem_cons.mpr (Or.inl rfl)
      · exact List.mem_cons.mpr (Or.inr (List.mem_cons.mpr (Or.inr h1)))

theorem foldMax_ge_seed (ms : List (String × Int)) :
    ∀ m : String × Int,
      m.2 ≤ (ms.foldl (fun acc p => if acc.2 < p.2 then p else acc) m).2 := by
  induction ms with
  | nil =>
    intro m
    simp
  | cons a t ih =>
    intro m
    simp only [List.foldl_cons]
    by_cases hc : m.2 < a.2
    · rw [if_pos hc]
      have h := ih a
      omega
    · rw [if_neg hc]
      exact ih m

theorem foldMax_ge_mem (ms : List (String × Int)) :
    ∀ (m : String × Int) (p : String × Int), p ∈ ms →
      p.2 ≤ (ms.foldl (fun acc p => if acc.2 < p.2 then p else acc) m).2 := by
  induction ms with
  | nil =>
    intro m p hp
    cases hp
  | cons a t ih =>
    intro m p hp
    simp only [List.foldl_cons]
    rcases List.mem_cons.mp hp with h1 | h1
    · by_cases hc : m.2 < a.2
      · rw [if_pos hc, h1]
        exact foldMax_ge_seed t a
      · rw [if_neg hc, h1]
        have h := foldMax_ge_seed t m
        omega
    · exact ih _ p h1

theorem us_prefix_eq : ∀ (a b rest : List Char), '_' ∉ a → '_' ∉ b →
    ((a ++ ['_']) <+: (b ++ '_' :: rest)) → a = b := by
  intro a
  induction a with
  | nil =>
    intro b rest _ hb h
    cases b with
    | nil => rfl
    | cons y ys =>
      rw [List.nil_append, List.cons_append] at h
      have := (List.cons_prefix_cons.mp h).1
      exact absurd (List.mem_cons.mpr (Or.inl this)) hb
  | cons x xs ih =>
    intro b rest ha hb h
    cases b with
    | nil =>
      rw [List.cons_append, List.nil_append] at h
      have := (List.cons_prefix_cons.mp h).1
      exact absurd (List.mem_cons.mpr (Or.inl this.symm)) ha
    | cons y ys =>
      rw [List.cons_append, List.cons_append] at h
      have h1 := (List.cons_prefix_cons.mp h).1
      have h2 := (List.cons_prefix_cons.mp h).2
      have hxs : xs = ys := ih ys rest
        (fun hm => ha (List.mem_cons.mpr (Or.inr hm)))
        (fun hm => hb (List.mem_cons.mpr (Or.inr hm))) h2
      rw [h1, hxs]

theorem us_data : ("_" : String).data = ['_'] := rfl

/-- The character list of a scraper artifact name, fully right-associated. -/
theorem scraperCsvName_data (pre z t : String) :
    (scraperCsvName pre z t).data =
      "output/".data ++ (pre.data ++ ("_filtered_".data ++
        (z.data ++ ('_' :: (t.data ++ ".csv".data))))) := by
  simp [scraperCsvName, String.data_append, List.append_assoc, us_data]

/-- The character list of a glob stem, fully right-associated. -/
theorem stem_data (pre q : String) :
    ("output/" ++ pre ++ "_filtered_" ++ q ++ "_").data =
      "output/".data ++ (pre.data ++ ("_filtered_".data ++ (q.data ++ ['_']))) := by
  simp [String.data_append, List.append_assoc, us_data]

/-- Two incomparable literal stems cannot head the same file name. -/
theorem cross_cat_absurd (C P : String) (X Y : List Char)
    (hc1 : ¬ (C.data <+: P.data)) (hc2 : ¬ (P.data <+: C.data))
    (h : C.data ++ X <+: P.data ++ Y) : False := by
  have hC : C.data <+: P.data ++ Y := (List.prefix_append C.data X).trans h
  have hP : P.data <+: P.data ++ Y := List.prefix_append _ _
  rcases List.prefix_or_prefix_of_prefix hC hP with h1 | h1
  · exact hc1 h1
  · exact hc2 h1

/-- A scraper artifact matching the glob of `get_latest_csv` must carry the
queried category stem and (for underscore-free zipcodes) the queried
zipcode. -/
theorem pat_zip_cat (energy q pre z t : String)
    (hpre : pre = "pagasswitch" ∨ pre = "papowerswitch")
    (hq : '_' ∉ q.data) (hz : '_' ∉ z.data)
    (hp : filePat (catPre energy) q (scraperCsvName pre z t) = true) :
    pre = catPre energy ∧ z = q := by
  have hstart : strStarts (scraperCsvName pre z t)
      ("output/" ++ catPre energy ++ "_filtered_" ++ q ++ "_") = true := by
    simp only [filePat, Bool.and_eq_true] at hp
    exact hp.1.1
  rw [strStarts, List.isPrefixOf_iff_prefix, stem_data, scraperCsvName_data,
    List.prefix_append_right_inj] at hstart
  have hcat : pre = catPre energy := by
    rcases hpre with h | h <;>
      rcases hE : (energy == "Electricity") <;>
        simp only [catPre, hE, if_true, if_false, Bool.false_eq_true] at hstart ⊢
    · exact h
    · exact absurd hstart (fun hh =>
        cross_cat_absurd "papowerswitch" "pagasswitch" _ _ (by decide) (by decide)
          (h ▸ hh))
    · exact absurd hstart (fun hh =>
        cross_cat_absurd "pagasswitch" "papowerswitch" _ _ (by decide) (by decide)
          (h ▸ hh))
    · exact h
  refine ⟨hcat, ?_⟩
  rw [← hcat, List.prefix_append_right_inj, List.prefix_append_right_inj] at hstart
  exact (congrArg String.mk (us_prefix_eq q.data z.data _ hq hz hstart)).symm

/-- C10 (amended): over a directory of scraper artifacts whose zipcodes are
underscore-free, and for an underscore-free queried zipcode,
`get_latest_csv` errors with `FileNotFoundError` exactly when no file
matches the glob pattern; a successful result is a matching file of the
directory with the greatest creation time, and it is a scraper artifact of
the queried category and the queried zipcode.  (The original claim, with no
underscore restriction, is refuted by `C10_counterexample`: the glob
"stem_filtered_zipcode_*.csv" lets a queried zipcode that itself
contains an underscore capture another zipcode's artifact.) -/
theorem C10_latest_csv (files : List (String × Int)) (zipcode energy : String)
    (hzip : '_' ∉ zipcode.data)
    (hfiles : ∀ f ∈ files, ∃ pre z t,
        (pre = "pagasswitch" ∨ pre = "papowerswitch") ∧
        '_' ∉ z.data ∧ f.1 = scraperCsvName pre z t) :
    (get_latest_csv files zipcode energy = Except.error "FileNotFoundError" ↔
       ∀ f ∈ files, filePat (catPre energy) zipcode f.1 = false) ∧
    (∀ name, get_latest_csv files zipcode energy = Except.ok name →
       (∃ c, (name, c) ∈ files ∧ filePat (catPre energy) zipcode name = true ∧
         ∀ f ∈ files, filePat (catPre energy) zipcode f.1 = true → f.2 ≤ c) ∧
       (∃ t, name = scraperCsvName (catPre energy) zipcode t)) := by
  constructor
  · cases hfil : files.filter (fun p => filePat (catPre energy) zipcode p.1) with
    | nil =>
      constructor
      · intro _ f hf
        cases hb : filePat (catPre energy) zipcode f.1
        · rfl
        · exact absurd hb (List.filter_eq_nil_iff.mp hfil f hf)
      · intro _
        unfold get_latest_csv
        rw [hfil]
    | cons m ms =>
      have he : get_latest_csv files zipcode energy =
          Except.ok ((ms.foldl (fun acc p => if acc.2 < p.2 then p else acc) m).1) := by
        unfold get_latest_csv
        rw [hfil]
      constructor
      · intro herr
        rw [he] at herr
        exact absurd herr (by simp)
      · intro hall
        have hm : m ∈ files.filter (fun p => filePat (catPre energy) zipcode p.1) := by
          rw [hfil]
          exact List.mem_cons_self m ms
        have h2 := List.mem_filter.mp hm
        have h3 := hall m h2.1
        rw [h2.2] at h3
        cases h3
  · intro name hok
    cases hfil : files.filter (fun p => filePat (catPre energy) zipcode p.1) with
    | nil =>
      have he : get_latest_csv files zipcode energy = Except.error "FileNotFoundError" := by
        unfold get_latest_csv
        rw [hfil]
      rw [he] at hok
      exact absurd hok (by simp)
    | cons m ms =>
      have he : get_latest_csv files zipcode energy =
          Except.ok ((ms.foldl (fun acc p => if acc.2 < p.2 then p else acc) m).1) := by
        unfold get_latest_csv
        rw [hfil]
      have hname : (ms.foldl (fun acc p => if acc.2 < p.2 then p else acc) m).1 = name :=
        Except.ok.inj (he.symm.trans hok)
      have hmem : (ms.foldl (fun acc p => if acc.2 < p.2 then p else acc) m) ∈
          files.filter (fun p => filePat (catPre energy) zipcode p.1) := by
        rw [hfil]
        exact foldMax_mem ms m
      have h2 := List.mem_filter.mp hmem
      have hpat : filePat (catPre energy) zipcode name = true := by
        rw [← hname]
        exact h2.2
      constructor
      · refine ⟨(ms.foldl (fun acc p => if acc.2 < p.2 then p else acc) m).2, ?_, hpat, ?_⟩
        · rw [← hname]
          exact h2.1
        · intro f hf hfp
          have hmf : f ∈ files.filter (fun p => filePat (catPre energy) zipcode p.1) :=
            List.mem_filter.mpr ⟨hf, hfp⟩
          rw [hfil] at hmf
          rcases List.mem_cons.mp hmf with h1 | h1
          · rw [h1]
            exact foldMax_ge_seed ms m
          · exact foldMax_ge_mem ms m f h1
      · obtain ⟨pre, z, t, hpre, hz, hfeq⟩ := hfiles _ h2.1
        rw [hfeq] at hname
        rw [← hname] at hpat ⊢
        obtain ⟨hc, hzq⟩ := pat_zip_cat energy zipcode pre z t hpre hzip hz hpat
        exact ⟨t, by rw [hc, hzq]⟩

/-- C10 counterexample: the directory holds only the gas artifact written
for zipcode "19"; querying the distinct zipcode "19_20250101" nevertheless
returns that file — `get_latest_csv` can return a file for a different
zipcode, refuting the unrestricted claim. -/
theorem C10_counterexample :
    get_latest_csv [(scraperCsvName "pagasswitch" "19" "20250101_000000", 5)]
        "19_20250101" "Gas" =
      Except.ok (scraperCsvName "pagasswitch" "19" "20250101_000000") ∧
    ("19_20250101" : String) ≠ "19" := by
  constructor
  · rfl
  · decide

/-- C10 witness: a one-artifact directory queried with its own zipcode and
category; the successful lookup is the queried category and zipcode. -/
theorem C10_latest_csv_witness :
    ∃ t, scraperCsvName "pagasswitch" "17103" "20250101_000000" =
      scraperCsvName (catPre "Gas") "17103" t :=
  ((C10_latest_csv [(scraperCsvName "pagasswitch" "17103" "20250101_000000", 3)]
      "17103" "Gas" (by decide)
      (fun f hf => ⟨"pagasswitch", "17103", "20250101_000000", Or.inl rfl, by decide,
        by rw [List.mem_singleton.mp hf]⟩)).2
    (scraperCsvName "pagasswitch" "17103" "20250101_000000") rfl).2

/-!
### Idempotence infrastructure (C8)

Running a pipeline on its own output: cell-level fixpoints, row fixpoints,
and header fixpoints.
-/

theorem toNumeric_idem (c : Cell) : toNumeric (toNumeric c) = toNumeric c := by
  cases c with
  | num q => rfl
  | nan => rfl
  | str s =>
    cases hp : parseNum? s <;> simp [toNumeric, hp]

theorem fillNa_idem (c : Cell) : fillNa (fillNa c) = fillNa c := by
  cases c <;> rfl

theorem pair_val_getCell (r : Row) (hnd : (r.map Prod.fst).Nodup) :
    ∀ p ∈ r, p.2 = getCell r p.1 := by
  induction r with
  | nil =>
    intro p hp
    cases hp
  | cons q t ih =>
    rw [List.map_cons, List.nodup_cons] at hnd
    intro p hp
    rcases List.mem_cons.mp hp with h1 | h1
    · subst h1
      simp [getCell, List.find?_cons]
    · have hne : (q.1 == p.1) = false := by
        have : q.1 ≠ p.1 := fun he => hnd.1 (he ▸ List.mem_map_of_mem Prod.fst h1)
        simpa using this
      have := ih hnd.2 p h1
      simpa [getCell, List.find?_cons, hne] using this

theorem mapColRow_eq_self (c : String) (g' : Cell → Cell) (r : Row)
    (h : ∀ p ∈ r, p.1 = c → g' p.2 = p.2) : mapColRow c g' r = r := by
  induction r with
  | nil => rfl
  | cons p t ih =>
    unfold mapColRow
    rw [List.map_cons]
    have ht : mapColRow c g' t = t := ih (fun q hq => h q (List.mem_cons.mpr (Or.inr hq)))
    unfold mapColRow at ht
    rw [ht]
    by_cases hp : p.1 = c
    · rw [if_pos (show (p.1 == c) = true by simp [hp]),
        h p (List.mem_cons.mpr (Or.inl rfl)) hp]
    · simp [hp]

theorem setRowVal_eq_self (c : String) (v : Cell) (r : Row)
    (h : ∀ p ∈ r, p.1 = c → p.2 = v) : setRowVal c v r = r := by
  induction r with
  | nil => rfl
  | cons p t ih =>
    unfold setRowVal
    rw [List.map_cons]
    have ht := ih (fun q hq => h q (List.mem_cons.mpr (Or.inr hq)))
    unfold setRowVal at ht
    rw [ht]
    by_cases hp : p.1 = c
    · rw [if_pos (show (p.1 == c) = true by simp [hp]),
        ← h p (List.mem_cons.mpr (Or.inl rfl)) hp]
    · simp [hp]

theorem pairs_setRowVal (c : String) (v : Cell) (r : Row) :
    ∀ p ∈ setRowVal c v r, p.1 = c → p.2 = v := by
  intro p hp hpc
  unfold setRowVal at hp
  rcases List.mem_map.mp hp with ⟨q, _, hqe⟩
  by_cases hq : q.1 = c
  · rw [← hqe]
    simp [hq]
  · rw [if_neg (by simpa using hq)] at hqe
    rw [← hqe] at hpc
    exact absurd hpc hq

theorem map_eq_self_of_fix {α : Type} (l : List α) (u : α → α)
    (h : ∀ a ∈ l, u a = a) : l.map u = l :=
  (@List.map_congr_left _ l _ u id h).trans (List.map_id l)

theorem priceStepK_header (srt : List Row → List Row) (f : Frame) :
    (priceStepK srt f).header = f.header := by
  unfold priceStepK
  by_cases hp : f.hasCol "Price" = true
  · rw [if_pos hp]
  · rw [if_neg hp]

theorem priceStepK_WF {srt : List Row → List Row} (hs : sortsRows srt) {f : Frame}
    (hwf : f.WF) : (priceStepK srt f).WF := by
  unfold priceStepK
  by_cases hp : f.hasCol "Price" = true
  · rw [if_pos hp]
    intro r hr
    have hr2 : r ∈ f.rows.map (mapColRow "Price" toNumeric) :=
      ((hs _).1.mem_iff).mp hr
    rcases List.mem_map.mp hr2 with ⟨r0, hr0, hre⟩
    rw [← hre, keys_mapColRow]
    exact hwf r0 hr0
  · rw [if_neg hp]
    exact hwf

theorem priceStepK_sorted {srt : List Row → List Row} (hs : sortsRows srt) (f : Frame)
    (hp : f.hasCol "Price" = true) :
    List.Pairwise (fun a b => rowLe a b = true) (priceStepK srt f).rows := by
  unfold priceStepK
  rw [if_pos hp]
  exact (hs _).2

theorem priceStepK_price_val {srt : List Row → List Row} (hs : sortsRows srt)
    (f : Frame) (hp : f.hasCol "Price" = true) :
    ∀ r ∈ (priceStepK srt f).rows, ∃ x, getCell r "Price" = toNumeric x := by
  unfold priceStepK
  rw [if_pos hp]
  intro r hr
  have hr2 : r ∈ f.rows.map (mapColRow "Price" toNumeric) :=
    ((hs _).1.mem_iff).mp hr
  rcases List.mem_map.mp hr2 with ⟨r0, _, hre⟩
  refine ⟨getCell r0 "Price", ?_⟩
  rw [← hre, getCell_mapColRow_self "Price" toNumeric r0 rfl]

theorem priceStepK_apply (srt : List Row → List Row) (f : Frame)
    (hp : f.hasCol "Price" = true)
    (hcl : ∀ r ∈ f.rows, mapColRow "Price" toNumeric r = r) :
    priceStepK srt f = ⟨f.header, srt f.rows⟩ := by
  unfold priceStepK
  rw [if_pos hp, map_eq_self_of_fix f.rows _ hcl]

theorem priceStepK_skip (srt : List Row → List Row) (f : Frame)
    (hp : ¬f.hasCol "Price" = true) : priceStepK srt f = f := by
  unfold priceStepK
  rw [if_neg hp]

theorem appliesEq_mapColRow (h : List String) (c v : String) (r : Row)
    (hne : c ≠ "Price") :
    appliesEq h c v (mapColRow "Price" toNumeric r) = appliesEq h c v r := by
  unfold appliesEq
  rw [getCell_mapColRow_ne _ _ _ _ hne]

theorem gasPred_mapColRow (h : List String) (r : Row) :
    gasPred h (mapColRow "Price" toNumeric r) = gasPred h r := by
  unfold gasPred elecPred
  rw [appliesEq_mapColRow _ _ _ _ (by decide), appliesEq_mapColRow _ _ _ _ (by decide),
    appliesEq_mapColRow _ _ _ _ (by decide), appliesEq_mapColRow _ _ _ _ (by decide),
    getCell_mapColRow_ne _ _ _ _ (by decide : ("Cancellation Fee" : String) ≠ "Price")]

theorem elecPred_mapColRow (h : List String) (r : Row) :
    elecPred h (mapColRow "Price" toNumeric r) = elecPred h r := by
  unfold elecPred
  rw [appliesEq_mapColRow _ _ _ _ (by decide), appliesEq_mapColRow _ _ _ _ (by decide),
    appliesEq_mapColRow _ _ _ _ (by decide)]

theorem gasRowsK_pred (srt : List Row → List Row) (hs : sortsRows srt) (f : Frame) :
    ∀ r ∈ (priceStepK srt (gasFilters f)).rows,
      gasPred (priceStepK srt (gasFilters f)).header r = true := by
  rw [priceStepK_header, gasFilters_header]
  intro r hr
  unfold priceStepK at hr
  by_cases hp : (gasFilters f).hasCol "Price" = true
  · rw [if_pos hp] at hr
    have hr2 : r ∈ (gasFilters f).rows.map (mapColRow "Price" toNumeric) :=
      ((hs _).1.mem_iff).mp hr
    rcases List.mem_map.mp hr2 with ⟨r0, hr0, hre⟩
    rw [gasFilters_eq] at hr0
    rw [← hre, gasPred_mapColRow]
    exact (List.mem_filter.mp hr0).2
  · rw [if_neg hp] at hr
    rw [gasFilters_eq] at hr
    exact (List.mem_filter.mp hr).2

theorem elecRowsK_pred (srt : List Row → List Row) (hs : sortsRows srt) (f : Frame) :
    ∀ r ∈ (priceStepK srt (elecFilters f)).rows,
      elecPred (priceStepK srt (elecFilters f)).header r = true := by
  rw [priceStepK_header, elecFilters_header]
  intro r hr
  unfold priceStepK at hr
  by_cases hp : (elecFilters f).hasCol "Price" = true
  · rw [if_pos hp] at hr
    have hr2 : r ∈ (elecFilters f).rows.map (mapColRow "Price" toNumeric) :=
      ((hs _).1.mem_iff).mp hr
    rcases List.mem_map.mp hr2 with ⟨r0, hr0, hre⟩
    rw [elecFilters_eq] at hr0
    rw [← hre, elecPred_mapColRow]
    exact (List.mem_filter.mp hr0).2
  · rw [if_neg hp] at hr
    rw [elecFilters_eq] at hr
    exact (List.mem_filter.mp hr).2

theorem gasH8_ext (X : List String) (hcond : prioCols.all X.contains = true) :
    gasH8 X = prioCols ++ X.filter (fun c => !prioCols.contains c) := by
  unfold gasH8
  rw [if_pos hcond]

theorem gasH8_skip (X : List String) (hcond : prioCols.all X.contains = false) :
    gasH8 X = X := by
  unfold gasH8
  rw [hcond, if_neg (by decide : ¬(false = true))]

theorem gasH9_pos {h : List String}
    (hb9 : (gasH8 (gasH7 h)).contains "New Customers only" = true) :
    gasH9 h = gasH8 (gasH7 h) := by
  unfold gasH9
  rw [if_pos hb9]

theorem gasH9_neg {h : List String}
    (hb9 : ¬(gasH8 (gasH7 h)).contains "New Customers only" = true) :
    gasH9 h = gasH8 (gasH7 h) ++ ["New Customers only"] := by
  unfold gasH9
  rw [if_neg hb9]

theorem gasHOut_mi {h : List String} (hmi : h.contains "More info" = true) :
    gasHOut h = gasH9 h ++ ["More info"] := by
  unfold gasHOut gasH9
  rw [if_pos hmi]

theorem gasHOut_nomi {h : List String} (hmi : h.contains "More info" = false) :
    gasHOut h = gasH8 (gasH7 h) := by
  unfold gasHOut
  rw [hmi, if_neg (by decide : ¬(false = true))]

theorem gasRowOut_mi {h : List String} (hmi : h.contains "More info" = true) (r : Row) :
    gasRowOut h r = gasRow9 h r ++ [("More info", gasMIv r)] := by
  unfold gasRowOut gasRow9
  rw [if_pos hmi]

theorem gasRowOut_nomi {h : List String} (hmi : h.contains "More info" = false) (r : Row) :
    gasRowOut h r = gasRow8 h r := by
  unfold gasRowOut
  rw [hmi, if_neg (by decide : ¬(false = true))]

theorem keys_gasRow9 (h : List String) (r : Row) (hk : r.map Prod.fst = h) :
    (gasRow9 h r).map Prod.fst = gasH9 h := by
  unfold gasRow9 gasH9
  by_cases hb9 : (gasH8 (gasH7 h)).contains "New Customers only" = true
  · rw [if_pos hb9, if_pos hb9, keys_setRowVal, keys_gasRow8 h r hk]
  · rw [if_neg hb9, if_neg hb9, keys_append_single, keys_gasRow8 h r hk]

theorem mem_gasH8_iff (h7 : List String) (c : String) : c ∈ gasH8 h7 ↔ c ∈ h7 := by
  unfold gasH8
  by_cases hb : prioCols.all h7.contains = true
  · rw [if_pos hb]
    constructor
    · intro hc
      rcases List.mem_append.mp hc with h1 | h2
      · exact contains_mem.mp (List.all_eq_true.mp hb c h1)
      · exact (List.mem_filter.mp h2).1
    · intro hc
      by_cases hp : c ∈ prioCols
      · exact List.mem_append.mpr (Or.inl hp)
      · refine List.mem_append.mpr (Or.inr (List.mem_filter.mpr ⟨hc, ?_⟩))
        rw [Bool.eq_false_iff.mpr (fun hcon => hp (contains_mem.mp hcon))]
        rfl
  · rw [if_neg hb]

theorem nco_mem_gasH9 (h : List String) :
    (gasH9 h).contains "New Customers only" = true := by
  by_cases hb9 : (gasH8 (gasH7 h)).contains "New Customers only" = true
  · rw [gasH9_pos hb9]
    exact hb9
  · rw [gasH9_neg hb9]
    exact contains_mem.mpr (List.mem_append.mpr (Or.inr (List.mem_singleton.mpr rfl)))

theorem mem_gasH9_iff (h : List String) (c : String) (hne : c ≠ "New Customers only") :
    c ∈ gasH9 h ↔ c ∈ gasH8 (gasH7 h) := by
  by_cases hb9 : (gasH8 (gasH7 h)).contains "New Customers only" = true
  · rw [gasH9_pos hb9]
  · rw [gasH9_neg hb9]
    constructor
    · intro hc
      rcases List.mem_append.mp hc with h1 | h2
      · exact h1
      · exact absurd (List.mem_singleton.mp h2) hne
    · intro hc
      exact List.mem_append.mpr (Or.inl hc)

theorem mi_not_mem_gasH9 {h : List String} (hmi : h.contains "More info" = true) :
    "More info" ∉ gasH9 h := by
  intro hm
  exact mi_not_mem_gasH8 hmi ((mem_gasH9_iff h _ (by decide)).mp hm)

theorem nodup_gasH8 {h7 : List String} (hnd : h7.Nodup) : (gasH8 h7).Nodup := by
  unfold gasH8
  by_cases hb : prioCols.all h7.contains = true
  · rw [if_pos hb]
    rw [List.nodup_append]
    refine ⟨by decide, hnd.filter _, ?_⟩
    intro c hcp hcf
    have hmf := (List.mem_filter.mp hcf).2
    rw [contains_mem.mpr hcp] at hmf
    simp at hmf
  · rw [if_neg hb]
    exact hnd

theorem nodup_gasH9 {h : List String} (hnd : h.Nodup) : (gasH9 h).Nodup := by
  by_cases hb9 : (gasH8 (gasH7 h)).contains "New Customers only" = true
  · rw [gasH9_pos hb9]
    exact nodup_gasH8 (hnd.filter _)
  · rw [gasH9_neg hb9]
    rw [List.nodup_append]
    refine ⟨nodup_gasH8 (hnd.filter _), List.nodup_singleton _, ?_⟩
    intro c hc hcs
    rw [List.mem_singleton.mp hcs] at hc
    exact hb9 (contains_mem.mpr hc)

theorem mi_contains_gasHOut (h : List String) :
    (gasHOut h).contains "More info" = h.contains "More info" := by
  by_cases hmi : h.contains "More info" = true
  · rw [hmi, gasHOut_mi hmi]
    exact contains_mem.mpr (List.mem_append.mpr (Or.inr (List.mem_singleton.mpr rfl)))
  · have hmif : h.contains "More info" = false := Bool.eq_false_iff.mpr hmi
    rw [hmif, gasHOut_nomi hmif]
    rw [Bool.eq_false_iff]
    intro hcon
    have h1 := (mem_gasH8_iff _ _).mp (contains_mem.mp hcon)
    have h2 := (mem_gasH7 h1).1
    rw [contains_mem.mpr h2] at hmif
    cases hmif

theorem nodup_gasHOut {h : List String} (hnd : h.Nodup) : (gasHOut h).Nodup := by
  by_cases hmi : h.contains "More info" = true
  · rw [gasHOut_mi hmi, List.nodup_append]
    refine ⟨nodup_gasH9 hnd, List.nodup_singleton _, ?_⟩
    intro c hc hcs
    rw [List.mem_singleton.mp hcs] at hc
    exact mi_not_mem_gasH9 hmi hc
  · rw [gasHOut_nomi (Bool.eq_false_iff.mpr hmi)]
    exact nodup_gasH8 (hnd.filter _)

theorem unnamed_not_gasHOut (h : List String) :
    ∀ c ∈ gasHOut h, strContains c "Unnamed" = false := by
  intro c hc
  rcases mem_gasHOut_cases hc with hx | hx | hx | hx
  · have hall : ∀ x ∈ prioCols, strContains x "Unnamed" = false := by decide
    exact hall c hx
  · rcases mem_gasH7 hx with ⟨hmem, hnot⟩
    cases hu : strContains c "Unnamed"
    · rfl
    · exfalso
      apply hnot
      unfold gasCtr
      exact List.mem_append.mpr (Or.inr (List.mem_filter.mpr ⟨hmem, hu⟩))
  · rw [hx]
    decide
  · rw [hx]
    decide

theorem gasCtr_gasHOut_mi {h : List String} (hmi : h.contains "More info" = true) :
    gasCtr (gasHOut h) = ["More info"] := by
  have hcf : (gasHOut h).contains "Cancellation Fee" = false :=
    Bool.eq_false_iff.mpr (fun hcon => cf_not_mem_gasHOut h (contains_mem.mp hcon))
  have hunn : (gasHOut h).filter (fun c => strContains c "Unnamed") = [] := by
    rw [List.filter_eq_nil_iff]
    intro c hc
    simp [unnamed_not_gasHOut h c hc]
  unfold gasCtr
  rw [mi_contains_gasHOut, hmi, if_pos rfl, hcf, if_neg (by decide : ¬(false = true)), hunn]
  rfl

theorem gasCtr_gasHOut_nomi {h : List String} (hmi : h.contains "More info" = false) :
    gasCtr (gasHOut h) = [] := by
  have hcf : (gasHOut h).contains "Cancellation Fee" = false :=
    Bool.eq_false_iff.mpr (fun hcon => cf_not_mem_gasHOut h (contains_mem.mp hcon))
  have hunn : (gasHOut h).filter (fun c => strContains c "Unnamed") = [] := by
    rw [List.filter_eq_nil_iff]
    intro c hc
    simp [unnamed_not_gasHOut h c hc]
  unfold gasCtr
  rw [mi_contains_gasHOut, hmi, if_neg (by decide : ¬(false = true)), hcf,
    if_neg (by decide : ¬(false = true)), hunn]
  rfl

theorem gasH7_gasHOut_mi {h : List String} (hmi : h.contains "More info" = true) :
    gasH7 (gasHOut h) = gasH9 h := by
  unfold gasH7
  rw [gasCtr_gasHOut_mi hmi, gasHOut_mi hmi, List.filter_append]
  have h1 : (gasH9 h).filter (fun c => !(["More info"] : List String).contains c) =
      gasH9 h := by
    rw [List.filter_eq_self]
    intro c hc
    rw [singleton_contains_false (fun he : c = "More info" => mi_not_mem_gasH9 hmi (he ▸ hc))]
    rfl
  have h2 : (["More info"] : List String).filter
      (fun c => !(["More info"] : List String).contains c) = [] := by decide
  rw [h1, h2, List.append_nil]

theorem gasH7_gasHOut_nomi {h : List String} (hmi : h.contains "More info" = false) :
    gasH7 (gasHOut h) = gasHOut h :=
  gasH7_of_empty (gasCtr_gasHOut_nomi hmi)

theorem gasH8_of_structure (h7 Y : List String) (hY : ∀ c ∈ Y, c ∉ prioCols) :
    gasH8 (gasH8 h7 ++ Y) = gasH8 h7 ++ Y := by
  by_cases hb : prioCols.all h7.contains = true
  · have h8e := gasH8_ext h7 hb
    have hcond : prioCols.all (gasH8 h7 ++ Y).contains = true := by
      rw [List.all_eq_true]
      intro c hc
      refine contains_mem.mpr (List.mem_append.mpr (Or.inl ?_))
      rw [h8e]
      exact List.mem_append.mpr (Or.inl hc)
    rw [gasH8_ext _ hcond, h8e, List.filter_append, List.filter_append]
    have e1 : prioCols.filter (fun c => !prioCols.contains c) = [] := by decide
    have e2 : ((h7.filter (fun c => !prioCols.contains c)).filter
        (fun c => !prioCols.contains c)) =
        h7.filter (fun c => !prioCols.contains c) := by
      rw [List.filter_eq_self]
      intro c hc
      exact (List.mem_filter.mp hc).2
    have e3 : Y.filter (fun c => !prioCols.contains c) = Y := by
      rw [List.filter_eq_self]
      intro c hc
      rw [Bool.eq_false_iff.mpr (fun hcon => hY c hc (contains_mem.mp hcon))]
      rfl
    rw [e1, e2, e3, List.nil_append, List.append_assoc]
  · have hbf : prioCols.all h7.contains = false := Bool.eq_false_iff.mpr hb
    rw [gasH8_skip h7 hbf]
    have hcond : prioCols.all (h7 ++ Y).contains = false := by
      rw [Bool.eq_false_iff]
      intro hcon
      apply hb
      rw [List.all_eq_true] at hcon ⊢
      intro c hc
      rcases List.mem_append.mp (contains_mem.mp (hcon c hc)) with h1 | h2
      · exact contains_mem.mpr h1
      · exact absurd hc (hY c h2)
    exact gasH8_skip _ hcond

theorem gasH8_idem (h7 : List String) : gasH8 (gasH8 h7) = gasH8 h7 := by
  have h := gasH8_of_structure h7 [] (by intro c hc; cases hc)
  rwa [List.append_nil] at h

theorem gasH8_gasH9 (h : List String) : gasH8 (gasH9 h) = gasH9 h := by
  by_cases hb9 : (gasH8 (gasH7 h)).contains "New Customers only" = true
  · rw [gasH9_pos hb9]
    exact gasH8_idem (gasH7 h)
  · rw [gasH9_neg hb9]
    exact gasH8_of_structure (gasH7 h) ["New Customers only"]
      (by
        intro c hc
        rw [List.mem_singleton.mp hc]
        decide)

theorem gasHOut_fix (h : List String) : gasHOut (gasHOut h) = gasHOut h := by
  by_cases hmi : h.contains "More info" = true
  · have hmi' : (gasHOut h).contains "More info" = true := by
      rw [mi_contains_gasHOut, hmi]
    have hc9 : (gasH8 (gasH7 (gasHOut h))).contains "New Customers only" = true := by
      rw [gasH7_gasHOut_mi hmi, gasH8_gasH9]
      exact nco_mem_gasH9 h
    have h9 : gasH9 (gasHOut h) = gasH9 h := by
      rw [gasH9_pos hc9, gasH7_gasHOut_mi hmi, gasH8_gasH9]
    rw [gasHOut_mi hmi', h9, ← gasHOut_mi hmi]
  · have hmif : h.contains "More info" = false := Bool.eq_false_iff.mpr hmi
    have hmi' : (gasHOut h).contains "More info" = false := by
      rw [mi_contains_gasHOut, hmif]
    rw [gasHOut_nomi hmi', gasH7_gasHOut_nomi hmif, gasHOut_nomi hmif, gasH8_idem,
      ← gasHOut_nomi hmif]

theorem nodup_elecSel {h : List String} (hnd : h.Nodup) : (elecSel h).Nodup := by
  unfold elecSel
  rw [List.nodup_append]
  refine ⟨List.Nodup.filter _ (by decide), hnd.filter _, ?_⟩
  intro c hcp hcf
  have hmf := (List.mem_filter.mp hcf).2
  rw [contains_mem.mpr hcp] at hmf
  simp at hmf

theorem elecSel_fix (h : List String) : elecSel (elecSel h) = elecSel h := by
  have hP : prioCols.filter (elecSel h).contains = prioCols.filter h.contains := by
    apply List.filter_congr
    intro c hc
    apply bool_eq_of_iff
    constructor
    · intro h1
      exact contains_mem.mpr (mem_elecSel (contains_mem.mp h1))
    · intro h1
      refine contains_mem.mpr ?_
      unfold elecSel
      exact List.mem_append.mpr (Or.inl (List.mem_filter.mpr ⟨hc, h1⟩))
  show prioCols.filter (elecSel h).contains ++
      (elecSel h).filter (fun c => !(prioCols.filter (elecSel h).contains).contains c) =
      elecSel h
  rw [hP]
  conv_lhs => rw [show elecSel h = prioCols.filter h.contains ++
    h.filter (fun c => !(prioCols.filter h.contains).contains c) from rfl]
  rw [List.filter_append]
  have e1 : (prioCols.filter h.contains).filter
      (fun c => !(prioCols.filter h.contains).contains c) = [] := by
    rw [List.filter_eq_nil_iff]
    intro c hc
    show ¬((!(prioCols.filter h.contains).contains c) = true)
    rw [contains_mem.mpr hc]
    decide
  have e2 : ((h.filter (fun c => !(prioCols.filter h.contains).contains c)).filter
      (fun c => !(prioCols.filter h.contains).contains c)) =
      h.filter (fun c => !(prioCols.filter h.contains).contains c) := by
    rw [List.filter_eq_self]
    intro c hc
    exact (List.mem_filter.mp hc).2
  rw [e1, e2, List.nil_append]
  rfl

theorem appliesEq_gasOut (H : List String) (r : Row) (c v : String)
    (h1 : c ≠ "New Customers only") (h2 : c ≠ "More info") (h3 : c ≠ "Cancellation Fee")
    (h4 : strContains c "Unnamed" = false) (h5 : c ∉ prioCols)
    (hap : appliesEq H c v r = true) :
    appliesEq (gasHOut H) c v (gasRowOut H r) = true := by
  by_cases hmem : (gasHOut H).contains c = true
  · have hc7 : c ∈ gasH7 H := by
      rcases mem_gasHOut_cases (contains_mem.mp hmem) with hx | hx | hx | hx
      · exact absurd hx h5
      · exact hx
      · exact absurd hx h1
      · exact absurd hx h2
    have hcH : c ∈ H := (mem_gasH7 hc7).1
    have hctr : (gasCtr H).contains c = false := not_mem_gasCtr h2 h3 h4
    have hval : getCell (gasRowOut H r) c = getCell r c :=
      getCell_gasRowOut H r c hctr (Or.inr hc7) h1 h2
    unfold appliesEq at hap ⊢
    rw [hmem, hval]
    rw [contains_mem.mpr hcH] at hap
    simp only [Bool.not_true, Bool.false_or] at hap ⊢
    exact hap
  · unfold appliesEq
    rw [Bool.eq_false_iff.mpr hmem]
    rfl

theorem gasPred_out (H : List String) (r : Row) (hap : gasPred H r = true) :
    gasPred (gasHOut H) (gasRowOut H r) = true := by
  unfold gasPred elecPred at hap ⊢
  simp only [Bool.and_eq_true] at hap ⊢
  obtain ⟨⟨⟨⟨a1, a2⟩, a3⟩, _⟩, a5⟩ := hap
  refine ⟨⟨⟨⟨?_, ?_⟩, ?_⟩, ?_⟩, ?_⟩
  · exact appliesEq_gasOut H r _ _ (by decide) (by decide) (by decide) (by decide)
      (by decide) a1
  · exact appliesEq_gasOut H r _ _ (by decide) (by decide) (by decide) (by decide)
      (by decide) a2
  · exact appliesEq_gasOut H r _ _ (by decide) (by decide) (by decide) (by decide)
      (by decide) a3
  · have hcf : (gasHOut H).contains "Cancellation Fee" = false :=
      Bool.eq_false_iff.mpr (fun hcon => cf_not_mem_gasHOut H (contains_mem.mp hcon))
    rw [hcf]
    rfl
  · exact appliesEq_gasOut H r _ _ (by decide) (by decide) (by decide) (by decide)
      (by decide) a5

theorem gasFilters_gasCanon (p : Frame)
    (hpred : ∀ r ∈ p.rows, gasPred p.header r = true) :
    gasFilters (gasCanon p) = gasCanon p := by
  rw [gasFilters_eq]
  have hrows : (gasCanon p).rows.filter (gasPred (gasCanon p).header) =
      (gasCanon p).rows := by
    rw [List.filter_eq_self]
    intro row hrow
    rw [gasCanon_rows] at hrow
    rcases List.mem_map.mp hrow with ⟨r, hr, hre⟩
    rw [← hre, gasCanon_header]
    exact gasPred_out p.header r (hpred r hr)
  rw [hrows]

theorem appliesEq_elecOut (h : List String) (r : Row) (c v : String)
    (hap : appliesEq h c v r = true) :
    appliesEq (elecSel h) c v (selectRow (elecSel h) r) = true := by
  by_cases hmem : (elecSel h).contains c = true
  · have hcs : c ∈ elecSel h := contains_mem.mp hmem
    have hval : getCell (selectRow (elecSel h) r) c = getCell r c :=
      getCell_selectRow _ _ _ hcs
    have hch : c ∈ h := mem_elecSel hcs
    unfold appliesEq at hap ⊢
    rw [hmem, hval]
    rw [contains_mem.mpr hch] at hap
    simp only [Bool.not_true, Bool.false_or] at hap ⊢
    exact hap
  · unfold appliesEq
    rw [Bool.eq_false_iff.mpr hmem]
    rfl

theorem elecPred_out (h : List String) (r : Row) (hap : elecPred h r = true) :
    elecPred (elecSel h) (selectRow (elecSel h) r) = true := by
  unfold elecPred at hap ⊢
  simp only [Bool.and_eq_true] at hap ⊢
  obtain ⟨⟨a1, a2⟩, a3⟩ := hap
  exact ⟨⟨appliesEq_elecOut h r _ _ a1, appliesEq_elecOut h r _ _ a2⟩,
    appliesEq_elecOut h r _ _ a3⟩

theorem elecFilters_elecCanon (p : Frame)
    (hpred : ∀ r ∈ p.rows, elecPred p.header r = true) :
    elecFilters (elecCanon p) = elecCanon p := by
  rw [elecFilters_eq]
  have hrows : (elecCanon p).rows.filter (elecPred (elecCanon p).header) =
      (elecCanon p).rows := by
    rw [List.filter_eq_self]
    intro row hrow
    rw [elecCanon_rows] at hrow
    rcases List.mem_map.mp hrow with ⟨r, hr, hre⟩
    rw [← hre, elecCanon_header]
    exact elecPred_out p.header r (hpred r hr)
  rw [hrows]

theorem rowPriceClean (row : Row) (hnd : (row.map Prod.fst).Nodup)
    (hx : ∃ x, getCell row "Price" = toNumeric x) :
    mapColRow "Price" toNumeric row = row := by
  apply mapColRow_eq_self
  intro p hp hpc
  obtain ⟨x, hxe⟩ := hx
  have hv := pair_val_getCell row hnd p hp
  rw [hpc] at hv
  rw [hv, hxe, toNumeric_idem]

theorem gasCanon_price_clean (p : Frame) (hwf : p.WF) (hnd : p.header.Nodup)
    (hval : ∀ r ∈ p.rows, ∃ x, getCell r "Price" = toNumeric x) :
    ∀ row ∈ (gasCanon p).rows, mapColRow "Price" toNumeric row = row := by
  intro row hrow
  rcases List.mem_map.mp (by rw [gasCanon_rows] at hrow; exact hrow) with ⟨r, hr, hre⟩
  apply rowPriceClean
  · rw [← hre, keys_gasRowOut p.header r (hwf r hr)]
    exact nodup_gasHOut hnd
  · rw [← hre, getCell_gasRowOut_price]
    exact hval r hr

theorem elecCanon_price_clean (p : Frame) (hnd : p.header.Nodup)
    (hp : p.header.contains "Price" = true)
    (hval : ∀ r ∈ p.rows, ∃ x, getCell r "Price" = toNumeric x) :
    ∀ row ∈ (elecCanon p).rows, mapColRow "Price" toNumeric row = row := by
  intro row hrow
  rcases List.mem_map.mp (by rw [elecCanon_rows] at hrow; exact hrow) with ⟨r, hr, hre⟩
  apply rowPriceClean
  · rw [← hre, keys_selectRow]
    exact nodup_elecSel hnd
  · rw [← hre, getCell_elecSel_price hp]
    exact hval r hr

theorem gasRow9_pos {h : List String}
    (hb9 : (gasH8 (gasH7 h)).contains "New Customers only" = true) (r : Row) :
    gasRow9 h r = setRowVal "New Customers only" (gasNCOv r) (gasRow8 h r) := by
  unfold gasRow9
  rw [if_pos hb9]

theorem gasRow9_neg {h : List String}
    (hb9 : ¬(gasH8 (gasH7 h)).contains "New Customers only" = true) (r : Row) :
    gasRow9 h r = gasRow8 h r ++ [("New Customers only", gasNCOv r)] := by
  unfold gasRow9
  rw [if_neg hb9]

theorem getCell_gasRowOut_mi {h : List String} (hmi : h.contains "More info" = true)
    (r : Row) (hk : r.map Prod.fst = h) :
    getCell (gasRowOut h r) "More info" = gasMIv r := by
  rw [gasRowOut_mi hmi r]
  apply getCell_append_self
  rw [keys_gasRow9 h r hk]
  exact mi_not_mem_gasH9 hmi

theorem gasNCOv_out {h : List String} (hmi : h.contains "More info" = true)
    (r : Row) (hk : r.map Prod.fst = h) :
    gasNCOv (gasRowOut h r) = gasNCOv r := by
  unfold gasNCOv
  rw [show getCell (gasRowOut h r) "More info" = fillNa (getCell r "More info") from
    getCell_gasRowOut_mi hmi r hk, fillNa_idem]

theorem gasMIv_out {h : List String} (hmi : h.contains "More info" = true)
    (r : Row) (hk : r.map Prod.fst = h) :
    gasMIv (gasRowOut h r) = gasMIv r := by
  unfold gasMIv
  rw [show getCell (gasRowOut h r) "More info" = fillNa (getCell r "More info") from
    getCell_gasRowOut_mi hmi r hk, fillNa_idem]

theorem pairs_gasRow9_nco (h : List String) (r : Row) (hk : r.map Prod.fst = h) :
    ∀ p ∈ gasRow9 h r, p.1 = "New Customers only" → p.2 = gasNCOv r := by
  intro p hp hpc
  by_cases hb9 : (gasH8 (gasH7 h)).contains "New Customers only" = true
  · rw [gasRow9_pos hb9 r] at hp
    exact pairs_setRowVal _ _ _ p hp hpc
  · rw [gasRow9_neg hb9 r] at hp
    rcases List.mem_append.mp hp with hp1 | hp2
    · exfalso
      apply hb9
      apply contains_mem.mpr
      have hpk := List.mem_map_of_mem Prod.fst hp1
      rw [keys_gasRow8 h r hk, hpc] at hpk
      exact hpk
    · rw [show p = (("New Customers only" : String), gasNCOv r) from
        List.mem_singleton.mp hp2]

theorem setRowVal_gasRow9 (h : List String) (r : Row) (hk : r.map Prod.fst = h) :
    setRowVal "New Customers only" (gasNCOv r) (gasRow9 h r) = gasRow9 h r :=
  setRowVal_eq_self _ _ _ (pairs_gasRow9_nco h r hk)

theorem dropRow_mi_gasRowOut {h : List String} (hmi : h.contains "More info" = true)
    (r : Row) (hk : r.map Prod.fst = h) :
    dropRow ["More info"] (gasRowOut h r) = gasRow9 h r := by
  rw [gasRowOut_mi hmi r]
  unfold dropRow
  rw [List.filter_append]
  have h1 : (gasRow9 h r).filter
      (fun p => !(["More info"] : List String).contains p.1) = gasRow9 h r := by
    rw [List.filter_eq_self]
    intro p hp
    have hpk : p.1 ∈ gasH9 h := by
      have hm := List.mem_map_of_mem Prod.fst hp
      rwa [keys_gasRow9 h r hk] at hm
    rw [singleton_contains_false (fun he : p.1 = "More info" =>
      mi_not_mem_gasH9 hmi (he ▸ hpk))]
    rfl
  have h2 : ([(("More info" : String), gasMIv r)]).filter
      (fun p => !(["More info"] : List String).contains p.1) = [] := by
    simp
  rw [h1, h2, List.append_nil]

theorem gasRow8_gasHOut_mi {h : List String} (hmi : h.contains "More info" = true)
    (r : Row) (hk : r.map Prod.fst = h) (hnd : h.Nodup) :
    gasRow8 (gasHOut h) (gasRowOut h r) = gasRow9 h r := by
  unfold gasRow8
  rw [gasCtr_gasHOut_mi hmi, dropRow_mi_gasRowOut hmi r hk, gasH7_gasHOut_mi hmi]
  by_cases hc : prioCols.all (gasH9 h).contains = true
  · rw [if_pos hc]
    have hsel : prioCols ++ (gasH9 h).filter (fun c => !prioCols.contains c) =
        gasH9 h := by
      have hgg := gasH8_gasH9 h
      rw [gasH8_ext _ hc] at hgg
      exact hgg
    rw [hsel]
    rw [show gasH9 h = (gasRow9 h r).map Prod.fst from (keys_gasRow9 h r hk).symm]
    exact selectRow_self _ (by rw [keys_gasRow9 h r hk]; exact nodup_gasH9 hnd)
  · rw [if_neg hc]

theorem gasRowOut_fix_mi {h : List String} (hmi : h.contains "More info" = true)
    (r : Row) (hk : r.map Prod.fst = h) (hnd : h.Nodup) :
    gasRowOut (gasHOut h) (gasRowOut h r) = gasRowOut h r := by
  have hmi' : (gasHOut h).contains "More info" = true := by
    rw [mi_contains_gasHOut, hmi]
  rw [gasRowOut_mi hmi' (gasRowOut h r)]
  have hb9' : (gasH8 (gasH7 (gasHOut h))).contains "New Customers only" = true := by
    rw [gasH7_gasHOut_mi hmi, gasH8_gasH9]
    exact nco_mem_gasH9 h
  have h9 : gasRow9 (gasHOut h) (gasRowOut h r) = gasRow9 h r := by
    rw [gasRow9_pos hb9' (gasRowOut h r), gasRow8_gasHOut_mi hmi r hk hnd,
      gasNCOv_out hmi r hk, setRowVal_gasRow9 h r hk]
  rw [h9, gasMIv_out hmi r hk, ← gasRowOut_mi hmi r]

theorem gasRowOut_fix_nomi {h : List String} (hmi : h.contains "More info" = false)
    (r : Row) (hk : r.map Prod.fst = h) (hnd : h.Nodup) :
    gasRowOut (gasHOut h) (gasRowOut h r) = gasRowOut h r := by
  have hmi' : (gasHOut h).contains "More info" = false := by
    rw [mi_contains_gasHOut, hmi]
  rw [gasRowOut_nomi hmi' (gasRowOut h r)]
  unfold gasRow8
  rw [gasCtr_gasHOut_nomi hmi, dropRow_nil, gasH7_gasHOut_nomi hmi]
  by_cases hc : prioCols.all (gasHOut h).contains = true
  · rw [if_pos hc]
    have hsel : prioCols ++ (gasHOut h).filter (fun c => !prioCols.contains c) =
        gasHOut h := by
      have h1 : gasH8 (gasHOut h) = gasHOut h := by
        rw [gasHOut_nomi hmi]
        exact gasH8_idem _
      rw [gasH8_ext _ hc] at h1
      exact h1
    rw [hsel]
    rw [show gasHOut h = ((gasRowOut h r).map Prod.fst) from (keys_gasRowOut h r hk).symm]
    exact selectRow_self _ (by rw [keys_gasRowOut h r hk]; exact nodup_gasHOut hnd)
  · rw [if_neg hc]

theorem selectRow_elecSel_fix (h : List String) (hnd : h.Nodup) (r : Row) :
    selectRow (elecSel h) (selectRow (elecSel h) r) = selectRow (elecSel h) r := by
  have hnd2 : ((selectRow (elecSel h) r).map Prod.fst).Nodup := by
    rw [keys_selectRow]
    exact nodup_elecSel hnd
  have hss := selectRow_self (selectRow (elecSel h) r) hnd2
  rwa [keys_selectRow] at hss

theorem getCell_not_mem (r : Row) (c : String) (h : c ∉ r.map Prod.fst) :
    getCell r c = Cell.nan := by
  unfold getCell
  have hn : r.find? (fun p => p.1 == c) = none := by
    rw [List.find?_eq_none]
    intro p hp hpe
    apply h
    rw [← show p.1 = c from by simpa using hpe]
    exact List.mem_map_of_mem Prod.fst hp
  rw [hn]

theorem pairwise_rowLe_of_none (l : List Row) (h : ∀ r ∈ l, priceKeyR r = none) :
    List.Pairwise (fun a b => rowLe a b = true) l := by
  induction l with
  | nil => exact List.Pairwise.nil
  | cons a t ih =>
    refine List.Pairwise.cons ?_ (ih fun r hr => h r (List.mem_cons.mpr (Or.inr hr)))
    intro b hb
    show rowLe a b = true
    unfold rowLe
    rw [h a (List.mem_cons.mpr (Or.inl rfl)), h b (List.mem_cons.mpr (Or.inr hb))]
    rfl

theorem cellIsNum_fillNa (c : Cell) : cellIsNum (fillNa c) = cellIsNum c := by
  cases c <;> rfl

/-- The raise condition is not re-created by the column phase: the output
"More info" cells are the `fillna('')` copies, so a NaN or string cell of
the stored series survives as a string cell of the output. -/
theorem miRaises_out (p : Frame) (hwf : p.WF) (rows2 : List Row)
    (hperm : rows2.Perm (p.rows.map (gasRowOut p.header)))
    (h1 : miRaises p = false) :
    miRaises (⟨gasHOut p.header, rows2⟩ : Frame) = false := by
  by_cases hmi : p.header.contains "More info" = true
  · have hc2 : (gasHOut p.header).contains "More info" = true := by
      rw [mi_contains_gasHOut, hmi]
    have h1' : miNumeric (p.rows.map (fun r => getCell r "More info")) = false := by
      unfold miRaises at h1
      rw [show p.hasCol "More info" = true from hmi] at h1
      simpa using h1
    have hout : miNumeric (rows2.map (fun r => getCell r "More info")) = false := by
      cases hnil : p.rows with
      | nil =>
        have hr2 : rows2 = [] := by
          have hlen := hperm.length_eq
          rw [hnil] at hlen
          simpa using hlen
        rw [hr2]
        rfl
      | cons r0 t0 =>
        have hex : ∃ c ∈ p.rows.map (fun r => getCell r "More info"),
            ¬cellIsNum c = true := by
          by_contra hcon
          push_neg at hcon
          unfold miNumeric at h1'
          rw [List.all_eq_true.mpr hcon] at h1'
          rw [hnil] at h1'
          simp at h1'
        obtain ⟨c0, hc0mem, hc0⟩ := hex
        rcases List.mem_map.mp hc0mem with ⟨r, hr, hre⟩
        have hrow2 : gasRowOut p.header r ∈ rows2 :=
          hperm.mem_iff.mpr (List.mem_map_of_mem _ hr)
        have hnum2 : cellIsNum (getCell (gasRowOut p.header r) "More info") = false := by
          rw [getCell_gasRowOut_mi hmi r (hwf r hr)]
          show cellIsNum (fillNa (getCell r "More info")) = false
          rw [cellIsNum_fillNa, hre]
          exact Bool.eq_false_iff.mpr hc0
        unfold miNumeric
        cases hall : (rows2.map (fun r => getCell r "More info")).all cellIsNum with
        | false => rw [Bool.and_false]
        | true =>
          exfalso
          have hc := List.all_eq_true.mp hall _ (List.mem_map_of_mem _ hrow2)
          rw [hnum2] at hc
          cases hc
    show ((gasHOut p.header).contains "More info" &&
      miNumeric (rows2.map (fun r => getCell r "More info"))) = false
    rw [hc2, hout]
    rfl
  · have hc2 : (gasHOut p.header).contains "More info" = false := by
      rw [mi_contains_gasHOut]
      exact Bool.eq_false_iff.mpr hmi
    show ((gasHOut p.header).contains "More info" &&
      miNumeric (rows2.map (fun r => getCell r "More info"))) = false
    rw [hc2]
    rfl

/-- The stable merge sort satisfies the quicksort contract. -/
theorem mergeSort_sorts : sortsRows (fun l => l.mergeSort rowLe) := by
  intro l
  exact ⟨List.mergeSort_perm l rowLe, List.sorted_mergeSort rowLe_trans rowLe_total l⟩

/-- The tie-swapping sort satisfies the quicksort contract. -/
theorem swapTies_sorts : sortsRows swapTies := by
  have hms : ∀ l : List Row, (l.mergeSort rowLe).Perm l ∧
      List.Pairwise (fun a b => rowLe a b = true) (l.mergeSort rowLe) :=
    fun l => ⟨List.mergeSort_perm l rowLe, List.sorted_mergeSort rowLe_trans rowLe_total l⟩
  intro l
  match l with
  | [] => exact hms []
  | [a] => exact hms [a]
  | a :: b :: c :: t => exact hms (a :: b :: c :: t)
  | [a, b] =>
    by_cases htie : (rowLe a b && rowLe b a) = true
    · have he : swapTies [a, b] = [b, a] := by
        show (if rowLe a b && rowLe b a then [b, a] else ([a, b]).mergeSort rowLe) = [b, a]
        rw [if_pos htie]
      rw [he]
      rw [Bool.and_eq_true] at htie
      constructor
      · exact List.Perm.swap a b []
      · refine List.Pairwise.cons ?_ ?_
        · intro x hx
          rw [List.mem_singleton.mp hx]
          exact htie.2
        · exact List.Pairwise.cons (fun y hy => absurd hy (List.not_mem_nil y))
            List.Pairwise.nil
    · have he : swapTies [a, b] = ([a, b]).mergeSort rowLe := by
        show (if rowLe a b && rowLe b a then [b, a] else ([a, b]).mergeSort rowLe) = _
        rw [if_neg htie]
      rw [he]
      exact hms [a, b]

theorem elecDropT_id (cs : List String) (f : Frame)
    (h : ∀ c ∈ cs, f.hasCol c = false) : elecDropT cs f = f := by
  induction cs with
  | nil => rfl
  | cons a t ih =>
    unfold elecDropT
    rw [show f.hasCol a = false from h a (List.mem_cons.mpr (Or.inl rfl)),
      if_neg (by decide : ¬(false = true))]
    exact ih (fun c hc => h c (List.mem_cons.mpr (Or.inr hc)))

theorem elecDropT_nodup (cs : List String) (f : Frame) (hnd : f.header.Nodup) :
    (elecDropT cs f).header.Nodup := by
  induction cs generalizing f with
  | nil => exact hnd
  | cons a t ih =>
    unfold elecDropT
    by_cases ha : f.hasCol a = true
    · rw [if_pos ha]
      exact ih _ (hnd.filter _)
    · rw [if_neg ha]
      exact ih f hnd

/-- C8 (amended): on well-formed raw frames (rectangular rows and a
duplicate-free header, as `pd.read_csv` produces) both pipelines are
idempotent up to the order of equal-Price rows: feeding a pipeline's
output back in as raw input succeeds and returns a frame with the same
header and a permutation of the same rows, still price-sorted.  The claim
is stated over every pair of sort behaviors satisfying the
`sort_values(kind='quicksort')` contract, since numpy's introsort is not
stable; the original "same rows in the same order" is refuted by
`C8_counterexample`, where a contract-satisfying sort swaps two tied rows
on the second run. -/
theorem C8_idempotence :
    (∀ srt1 srt2, sortsRows srt1 → sortsRows srt2 →
      ∀ f g : Frame, f.WF → f.header.Nodup → normalizeGasK srt1 f = Except.ok g →
      ∃ g', normalizeGasK srt2 g = Except.ok g' ∧ g'.header = g.header ∧
        g'.rows.Perm g.rows ∧
        List.Pairwise (fun a b => rowLe a b = true) g'.rows) ∧
    (∀ srt1 srt2, sortsRows srt1 → sortsRows srt2 →
      ∀ f g : Frame, f.WF → f.header.Nodup → normalizeElecK srt1 f = Except.ok g →
      ∃ g', normalizeElecK srt2 g = Except.ok g' ∧ g'.header = g.header ∧
        g'.rows.Perm g.rows ∧
        List.Pairwise (fun a b => rowLe a b = true) g'.rows) := by
  constructor
  · intro srt1 srt2 hs1 hs2 f g hwf hnd hok
    obtain ⟨hg, hnr⟩ := normalizeGasK_ok hok
    have hpwf : (priceStepK srt1 (gasFilters f)).WF :=
      priceStepK_WF hs1 (gasFilters_WF hwf)
    have hph : (priceStepK srt1 (gasFilters f)).header = f.header := by
      rw [priceStepK_header, gasFilters_header]
    have hpnd : (priceStepK srt1 (gasFilters f)).header.Nodup := by
      rw [hph]
      exact hnd
    have hpred := gasRowsK_pred srt1 hs1 f
    have hghdr : g.header = gasHOut (priceStepK srt1 (gasFilters f)).header := by
      rw [hg, gasCanon_header]
    have hgrows : g.rows =
        (priceStepK srt1 (gasFilters f)).rows.map
          (gasRowOut (priceStepK srt1 (gasFilters f)).header) := by
      rw [hg, gasCanon_rows]
    have hrowfix : ∀ row ∈ g.rows, gasRowOut g.header row = row := by
      intro row hrow
      rw [hgrows] at hrow
      rcases List.mem_map.mp hrow with ⟨r, hr, hre⟩
      rw [hghdr, ← hre]
      by_cases hmi : (priceStepK srt1 (gasFilters f)).header.contains "More info" = true
      · exact gasRowOut_fix_mi hmi r (hpwf r hr) hpnd
      · exact gasRowOut_fix_nomi (Bool.eq_false_iff.mpr hmi) r (hpwf r hr) hpnd
    have hfilt : gasFilters g = g := by
      rw [hg]
      exact gasFilters_gasCanon _ hpred
    have hstep : ∃ rows2, priceStepK srt2 (gasFilters g) = ⟨g.header, rows2⟩ ∧
        rows2.Perm g.rows ∧
        List.Pairwise (fun a b => rowLe a b = true) rows2 := by
      rw [hfilt]
      by_cases hP : g.hasCol "Price" = true
      · have hPin : (priceStepK srt1 (gasFilters f)).header.contains "Price" = true := by
          apply price_mem_gasHOut
          apply contains_mem.mp
          rw [← hghdr]
          exact hP
        have hPf : (gasFilters f).hasCol "Price" = true := by
          show (gasFilters f).header.contains "Price" = true
          rw [gasFilters_header, ← hph]
          exact hPin
        have hval := priceStepK_price_val hs1 (gasFilters f) hPf
        have hcl : ∀ row ∈ g.rows, mapColRow "Price" toNumeric row = row := by
          rw [hg]
          exact gasCanon_price_clean _ hpwf hpnd hval
        exact ⟨srt2 g.rows, priceStepK_apply srt2 g hP hcl, (hs2 _).1, (hs2 _).2⟩
      · have hgWF : g.WF := by
          rw [hg]
          exact gasCanon_WF hpwf
        refine ⟨g.rows, ?_, List.Perm.refl _, ?_⟩
        · rw [priceStepK_skip srt2 g hP]
        · apply pairwise_rowLe_of_none
          intro r hr
          unfold priceKeyR
          rw [getCell_not_mem r "Price" (by
            rw [hgWF r hr]
            intro hmem
            exact hP (contains_mem.mpr hmem))]
          rfl
    obtain ⟨rows2, hq, hqperm, hqsort⟩ := hstep
    have hnr2 : miRaises (⟨g.header, rows2⟩ : Frame) = false := by
      rw [hghdr]
      exact miRaises_out _ hpwf rows2 (by rw [← hgrows]; exact hqperm) hnr
    have hcanon : gasCanon (⟨g.header, rows2⟩ : Frame) = (⟨g.header, rows2⟩ : Frame) := by
      have hhh : gasHOut g.header = g.header := by
        rw [hghdr]
        exact gasHOut_fix _
      have hrr : rows2.map (gasRowOut g.header) = rows2 := by
        apply map_eq_self_of_fix
        intro row hrow
        exact hrowfix row (hqperm.mem_iff.mp hrow)
      show (⟨gasHOut g.header, rows2.map (gasRowOut g.header)⟩ : Frame) =
        (⟨g.header, rows2⟩ : Frame)
      rw [hhh, hrr]
    refine ⟨⟨g.header, rows2⟩, ?_, rfl, hqperm, hqsort⟩
    show gasColumnPhase (priceStepK srt2 (gasFilters g)) =
      Except.ok (⟨g.header, rows2⟩ : Frame)
    rw [hq, gasColumnPhase_eq _ hnr2, hcanon]
  · intro srt1 srt2 hs1 hs2 f g _ hnd hok
    have hg := normalizeElecK_ok hok
    have hnd1 : (elecDropT elecInfoCols f).header.Nodup := elecDropT_nodup _ f hnd
    have hph : (priceStepK srt1 (elecFilters (elecDropT elecInfoCols f))).header =
        (elecDropT elecInfoCols f).header := by
      rw [priceStepK_header, elecFilters_header]
    have hpnd : (priceStepK srt1 (elecFilters (elecDropT elecInfoCols f))).header.Nodup := by
      rw [hph]
      exact hnd1
    have hpred := elecRowsK_pred srt1 hs1 (elecDropT elecInfoCols f)
    have hghdr : g.header =
        elecSel (priceStepK srt1 (elecFilters (elecDropT elecInfoCols f))).header := by
      rw [hg, elecCanon_header]
    have hgrows : g.rows =
        (priceStepK srt1 (elecFilters (elecDropT elecInfoCols f))).rows.map
          (selectRow (elecSel
            (priceStepK srt1 (elecFilters (elecDropT elecInfoCols f))).header)) := by
      rw [hg, elecCanon_rows]
    have hdrop : elecDropT elecInfoCols g = g := by
      apply elecDropT_id
      intro c hc
      show g.header.contains c = false
      rw [hghdr, Bool.eq_false_iff]
      intro hcon
      have hmem := mem_elecSel (contains_mem.mp hcon)
      rw [hph] at hmem
      exact elecDropT_not_mem elecInfoCols f c hc hmem
    have hfilt : elecFilters g = g := by
      rw [hg]
      exact elecFilters_elecCanon _ hpred
    have hrowfix : ∀ row ∈ g.rows, selectRow (elecSel g.header) row = row := by
      intro row hrow
      rw [hgrows] at hrow
      rcases List.mem_map.mp hrow with ⟨r, hr, hre⟩
      rw [hghdr, elecSel_fix, ← hre]
      exact selectRow_elecSel_fix _ hpnd r
    have hstep : ∃ rows2, priceStepK srt2 (elecFilters g) = ⟨g.header, rows2⟩ ∧
        rows2.Perm g.rows ∧
        List.Pairwise (fun a b => rowLe a b = true) rows2 := by
      rw [hfilt]
      by_cases hP : g.hasCol "Price" = true
      · have hPin : (priceStepK srt1
            (elecFilters (elecDropT elecInfoCols f))).header.contains "Price" = true := by
          apply contains_mem.mpr
          apply mem_elecSel
          apply contains_mem.mp
          rw [← hghdr]
          exact hP
        have hPf : (elecFilters (elecDropT elecInfoCols f)).hasCol "Price" = true := by
          show (elecFilters (elecDropT elecInfoCols f)).header.contains "Price" = true
          rw [elecFilters_header, ← hph]
          exact hPin
        have hval := priceStepK_price_val hs1 (elecFilters (elecDropT elecInfoCols f)) hPf
        have hcl : ∀ row ∈ g.rows, mapColRow "Price" toNumeric row = row := by
          rw [hg]
          exact elecCanon_price_clean _ hpnd hPin hval
        exact ⟨srt2 g.rows, priceStepK_apply srt2 g hP hcl, (hs2 _).1, (hs2 _).2⟩
      · have hgWF : g.WF := by
          rw [hg]
          exact elecCanon_WF _
        refine ⟨g.rows, ?_, List.Perm.refl _, ?_⟩
        · rw [priceStepK_skip srt2 g hP]
        · apply pairwise_rowLe_of_none
          intro r hr
          unfold priceKeyR
          rw [getCell_not_mem r "Price" (by
            rw [hgWF r hr]
            intro hmem
            exact hP (contains_mem.mpr hmem))]
          rfl
    obtain ⟨rows2, hq, hqperm, hqsort⟩ := hstep
    have hcanon : elecCanon (⟨g.header, rows2⟩ : Frame) = (⟨g.header, rows2⟩ : Frame) := by
      have hhh : elecSel g.header = g.header := by
        rw [hghdr]
        exact elecSel_fix _
      have hrr : rows2.map (selectRow (elecSel g.header)) = rows2 := by
        apply map_eq_self_of_fix
        intro row hrow
        exact hrowfix row (hqperm.mem_iff.mp hrow)
      show (⟨elecSel g.header, rows2.map (selectRow (elecSel g.header))⟩ : Frame) =
        (⟨g.header, rows2⟩ : Frame)
      rw [hrr, hhh]
    refine ⟨⟨g.header, rows2⟩, ?_, rfl, hqperm, hqsort⟩
    unfold normalizeElecK
    rw [elecDropSeq_eq]
    simp only [Bind.bind, Except.bind]
    rw [hdrop, hq, elecColumnPhase_eq, hcanon]

/-- C8 counterexample: `swapTies` is a legitimate behavior of the unstable
`kind='quicksort'` sort (it returns a sorted permutation), and under it the
electricity pipeline applied to its own output returns the two tied-Price
rows in the opposite order — "same rows in the same order" fails. -/
theorem C8_counterexample :
    sortsRows swapTies ∧
    normalizeElecK swapTies tieExport = Except.ok tieOut1 ∧
    normalizeElecK swapTies tieOut1 = Except.ok tieOut2 ∧
    tieOut2.header = tieOut1.header ∧
    tieOut2.rows.Perm tieOut1.rows ∧
    tieOut2.rows ≠ tieOut1.rows := by
  refine ⟨swapTies_sorts, ?_, ?_, rfl, by decide, by decide⟩
  · rfl
  · rfl

unseal List.mergeSort List.merge in
/-- C8 witness: at the stable-sort instance of the contract, the gas output
of the sample export is re-normalized to a frame with the same header and
the same rows up to permutation, still price-sorted. -/
theorem C8_idempotence_witness :
    ∃ g', normalizeGasK (fun l => l.mergeSort rowLe) sampleGasOut = Except.ok g' ∧
      g'.header = sampleGasOut.header ∧ g'.rows.Perm sampleGasOut.rows ∧
      List.Pairwise (fun a b => rowLe a b = true) g'.rows :=
  C8_idempotence.1 (fun l => l.mergeSort rowLe) (fun l => l.mergeSort rowLe)
    mergeSort_sorts mergeSort_sorts sampleExport sampleGasOut
    (by unfold Frame.WF; decide) (by decide)
    (by rw [normalizeGasK_eq _ _ (by decide)]; congr 1)
